import Mathlib

/-!
Shallow embedding of `movie_scraper.py` (zetalyze/MovieScraper).

The script scrapes box-office data for top-grossing movies: it fetches a
listing page, locates each movie's detail endpoint with a regular
expression over the raw root HTML, extracts budget / rating / box-office
tables, merges everything by rank and writes a sorted CSV.

Modelling conventions:
  * Python strings are `String` (manipulated as `List Char`); the three
    fixed regular expressions of the script are implemented as specialised
    matchers with Python's leftmost-then-greedy backtracking semantics
    (`.` never matches a newline).
  * pandas DataFrames are `Table` (a column-name list plus rows of
    `Cell`s); `pd.read_html` and `pd.Timestamp` are external library
    calls, so they enter the model as components of a `World`.
  * Floating point does not matter to any behaviour modelled here: the
    only float ever introduced by the script itself is the `0.0` written
    by `fillna(0.0)`, modelled as `Cell.num 0`.
  * HTTP is a function from URL to a `Response` (status plus body);
    `requests.get` never raises in the script, only the root fetch is
    followed by `raise_for_status()`.
  * The thread pool (`concurrent.futures.ThreadPoolExecutor.map`) is
    modelled by an explicit completion schedule: tasks finish in an
    arbitrary order `sched`, results are collected by submission index,
    which is exactly the ordering contract of `Executor.map`.
-/

namespace MovieScraper

/-! ### Regex matcher for `get_budget`
Pattern (movie_scraper.py line 33):
  Production&nbsp;Budget:.*(?P<budget>\$[0-9|,]+)
`.*` is greedy and cannot cross a newline, so the captured budget starts
at the last viable dollar sign on the label's line and extends over the
maximal run of characters from the class [0-9|,]. -/

def budgetLabel : List Char := "Production&nbsp;Budget:".data

def isBudgetChar (c : Char) : Bool := c.isDigit || c = '|' || c = ','

/-- Capture of the greedy backtracking: the last position in the line
holding a dollar sign followed by at least one class character wins. -/
def lastBudgetIn : List Char → Option (List Char)
  | [] => none
  | c :: cs =>
    match lastBudgetIn cs with
    | some b => some b
    | none =>
      if c = '$' then
        match cs.takeWhile isBudgetChar with
        | [] => none
        | _ :: _ => some ('$' :: cs.takeWhile isBudgetChar)
      else none

/-- Scan of `re.search`: leftmost start position at which the whole
pattern matches; on failure at one label occurrence the scan continues. -/
def searchBudget : List Char → Option (List Char)
  | [] => none
  | c :: cs =>
    if budgetLabel.isPrefixOf (c :: cs) then
      match lastBudgetIn (((c :: cs).drop budgetLabel.length).takeWhile (fun d => d ≠ '\n')) with
      | some b => some b
      | none => searchBudget cs
    else searchBudget cs

/-- movie_scraper.py lines 32-37 (`movie` is only used for logging). -/
def get_budget (movie : String) (summary_response : String) : String :=
  match searchBudget summary_response.data with
  | some b => String.mk b
  | none => "N/A"

/-! ### Regex matcher for `get_rating`
Pattern (movie_scraper.py line 41):
  MPAA&nbsp;Rating:.*\n.+<a.+>(?P<rating>.*)</a>
After the label, `.*\n` skips the rest of the label's line; the remainder
of the pattern is confined to the next line.  Backtracking priorities:
the `.+` before `<a` is maximised first, then the `.+` before `>`, then
the capture `(.*)` (so the capture ends at the last `</a>`). -/

def ratingLabel : List Char := "MPAA&nbsp;Rating:".data

def closeAnchor : List Char := "</a>".data

def openAnchor : List Char := "<a".data

/-- Index of the last occurrence of `pat` (as a contiguous sublist). -/
def lastSubAt (pat : List Char) : List Char → Option Nat
  | [] => none
  | c :: cs =>
    match lastSubAt pat cs with
    | some n => some (n + 1)
    | none => if pat.isPrefixOf (c :: cs) then some 0 else none

/-- Match of the final part of the pattern: the capture runs up to the
last occurrence of the closing tag. -/
def ratingTail (t : List Char) : Option (List Char) :=
  (lastSubAt closeAnchor t).map fun n => t.take n

/-- Match of the trailing part after the literal opening tag: the `.+`
before the angle bracket is maximised; the bracket index must be at
least 1 so that the `.+` is nonempty. -/
def lastGtMatch : List Char → Option (List Char)
  | [] => none
  | c :: cs =>
    match lastGtMatch cs with
    | some r => some r
    | none => if c = '>' then ratingTail cs else none

def ratingAfterOpen : List Char → Option (List Char)
  | [] => none
  | _ :: cs => lastGtMatch cs

/-- Match of the whole second-line pattern `.+<a.+>(.*)</a>` with `.+`
before the anchor maximised; the anchor occurrence index must be at
least 1 so that the leading `.+` is nonempty. -/
def lastOpenMatch : List Char → Option (List Char)
  | [] => none
  | c :: cs =>
    match lastOpenMatch cs with
    | some r => some r
    | none =>
      if openAnchor.isPrefixOf (c :: cs) then ratingAfterOpen ((c :: cs).drop 2) else none

def ratingInLine : List Char → Option (List Char)
  | [] => none
  | _ :: cs => lastOpenMatch cs

def tryRatingAt (s : List Char) : Option (List Char) :=
  if ratingLabel.isPrefixOf s then
    match (s.drop ratingLabel.length).dropWhile (fun d => d ≠ '\n') with
    | [] => none
    | _ :: rest => ratingInLine (rest.takeWhile (fun d => d ≠ '\n'))
  else none

def searchRating : List Char → Option (List Char)
  | [] => none
  | c :: cs =>
    match tryRatingAt (c :: cs) with
    | some r => some r
    | none => searchRating cs

/-- movie_scraper.py lines 40-45. -/
def get_rating (movie : String) (summary_response : String) : String :=
  match searchRating summary_response.data with
  | some r => String.mk r
  | none => "N/A"

/-! ### Regex matcher for `get_summary_endpoint`
Pattern (movie_scraper.py line 26):
  <a href="(?P<endpoint>.*#tab=summary)">{re.escape(movie.removesuffix(ellipsis))}
`re.escape` makes the (ellipsis-stripped) movie title a literal; the
greedy `.*` cannot cross a newline, so the captured endpoint runs from
just after the quote to the last position on that line at which the text
continues with the marker, the closing quote-bracket and the title. -/

def anchorPre : List Char := "<a href=\"".data

def summaryMarker : List Char := "#tab=summary".data

def markerQuote : List Char := "#tab=summary\">".data

/-- Python `movie.removesuffix("…")`: the one-character ellipsis suffix
is removed when present. -/
def stripEllipsis (m : List Char) : List Char :=
  if m.getLast? = some '…' then m.dropLast else m

/-- Greedy choice of how many characters `.*` consumes: the largest
offset `k` (consuming no newline) from which `pat` is a prefix of the
remaining text.  Preference runs from the deepest viable offset down. -/
def lastViableK (pat : List Char) : List Char → Option Nat
  | [] => if pat.isPrefixOf ([] : List Char) then some 0 else none
  | c :: cs =>
    if c = '\n' then
      if pat.isPrefixOf (c :: cs) then some 0 else none
    else
      match lastViableK pat cs with
      | some n => some (n + 1)
      | none => if pat.isPrefixOf (c :: cs) then some 0 else none

/-- Match attempt anchored at the start of `s`: the literal  <a href="
must be a prefix, then the greedy `.*#tab=summary` capture, then  ">
followed by the literal title `t`. -/
def tryAnchorAt (t : List Char) (s : List Char) : Option (List Char) :=
  if anchorPre.isPrefixOf s then
    (lastViableK (markerQuote ++ t) (s.drop anchorPre.length)).map fun k =>
      (s.drop anchorPre.length).take k ++ summaryMarker
  else none

def searchSummaryAnchor (t : List Char) : List Char → Option (List Char)
  | [] => none
  | c :: cs =>
    match tryAnchorAt t (c :: cs) with
    | some e => some e
    | none => searchSummaryAnchor t cs

/-- movie_scraper.py lines 25-29: a failed lookup raises `ValueError`. -/
def get_summary_endpoint (movie : String) (root_html : String) : Except String String :=
  match searchSummaryAnchor (stripEllipsis movie.data) root_html.data with
  | some e => .ok (String.mk e)
  | none => .error ("Got no summary response for movie: " ++ movie)

/-- Declarative reading of one match of the pattern at start offset `i`
with the greedy part consuming `k` characters. -/
def summaryAnchorMatchAt (t s : List Char) (i k : Nat) : Prop :=
  anchorPre.isPrefixOf (s.drop i) = true ∧
  (∀ c ∈ ((s.drop i).drop anchorPre.length).take k, c ≠ '\n') ∧
  (markerQuote ++ t).isPrefixOf (((s.drop i).drop anchorPre.length).drop k) = true

/-- Some match of the endpoint pattern exists somewhere in `s`. -/
def hasSummaryAnchor (t s : List Char) : Prop := ∃ i k, summaryAnchorMatchAt t s i k

/-! ### pandas tables and `get_box_office_stats` -/

/-- One pandas cell: missing (`NaN`), numeric, or textual.  The script
never does float arithmetic, so numeric cells are integers; the float
`0.0` written by `fillna(0.0)` becomes `num 0`. -/
inductive Cell where
  | na : Cell
  | num : Int → Cell
  | str : String → Cell
deriving DecidableEq, Repr

/-- A DataFrame as produced by `pd.read_html`: named columns and rows of
cells (a short row reads as `NaN` padding, pandas style). -/
structure Table where
  columns : List String
  rows : List (List Cell)
deriving DecidableEq, Repr

/-- movie_scraper.py line 50 (`watned_columns`); `Total\xa0Gross` holds a
non-breaking space. -/
def wantedColumns : List String :=
  ["Date", "Rank", "Gross", "%YD", "%LW", "Theaters", "Per Theater", "Total Gross", "Days"]

/-- Loop condition of lines 52-53: the column count check is performed
first, then exact list equality. -/
def wantedTable (t : Table) : Bool :=
  t.columns.length == wantedColumns.length && t.columns == wantedColumns

structure BoxOfficeRow where
  date : Cell
  gross : Cell
  theaters : Cell
  days : Cell
  rank : Int
deriving DecidableEq, Repr

/-- `fillna(0.0)`. -/
def fillna : Cell → Cell
  | .na => .num 0
  | c => c

/-- Projection `[["Date", "Gross", "Theaters", "Days"]].fillna(0.0)
.assign(Rank=rank)` of line 54.  In the selected table the columns are
exactly `wantedColumns`, placing Date, Gross, Theaters and Days at
positions 0, 2, 5 and 8. -/
def projectBoxRow (rank : Int) (r : List Cell) : BoxOfficeRow :=
  { date := fillna (r.getD 0 .na), gross := fillna (r.getD 2 .na),
    theaters := fillna (r.getD 5 .na), days := fillna (r.getD 8 .na), rank := rank }

/-- Fallback frame of line 56. -/
def sentinelRow (rank : Int) : BoxOfficeRow :=
  { date := .str "N/A", gross := .str "N/A", theaters := .str "N/A", days := .str "N/A",
    rank := rank }

/-- movie_scraper.py lines 48-56.  The argument is the table list parsed
from the box-office page; `pd.read_html` (line 49) raises `ValueError`
when the page holds no table at all, which this function mirrors. -/
def get_box_office_stats (movie : String) (rank : Int) (tables : List Table) :
    Except String (List BoxOfficeRow) :=
  if tables.isEmpty then .error "ValueError: No tables found"
  else
    match tables.find? wantedTable with
    | some t => .ok (t.rows.map (projectBoxRow rank))
    | none => .ok [sentinelRow rank]

/-! ### The outside world: HTTP and the two pandas library calls -/

structure Response where
  status : Nat
  body : String

/-- Everything the script consumes from outside: `requests.get` (with
the fixed header map, which never varies and is therefore dropped),
`pd.read_html`, and the timestamp parser behind `pd.Timestamp` (a
successfully parsed date string becomes its epoch offset). -/
structure World where
  http : String → Response
  readHtml : String → List Table
  parseTs : String → Option Int

def ROOT_LINK : String := "https://www.the-numbers.com"

def YEAR : Nat := 2022

/-- Listing URL of line 17. -/
def rootUrl : String := ROOT_LINK ++ "/market/" ++ toString YEAR ++ "/top-grossing-movies"

/-- `Response.raise_for_status()`: `requests` raises `HTTPError` exactly
for status codes in [400, 600). -/
def raise_for_status (r : Response) : Except String Unit :=
  if 400 ≤ r.status ∧ r.status < 600 then .error "HTTPError" else .ok ()

/-- Python `str.replace`: every non-overlapping occurrence of `pat` is
replaced left to right (structural fuel; one character is consumed per
step so `s.length` fuel always suffices). -/
def replaceAllAux (pat rep : List Char) : Nat → List Char → List Char
  | _, [] => []
  | 0, s => s
  | Nat.succ n, c :: cs =>
    if pat ≠ [] ∧ pat.isPrefixOf (c :: cs) then
      rep ++ replaceAllAux pat rep n ((c :: cs).drop pat.length)
    else c :: replaceAllAux pat rep n cs

def pyReplace (s pat rep : String) : String :=
  String.mk (replaceAllAux pat.data rep.data s.data.length s.data)

/-! ### Per-movie worker (`get_budget_rating_box_office`) -/

/-- Values taken from a DataFrame column are dynamically typed; the
worker treats the movie name as `str` (`.removesuffix`, `re.escape`)
and anything else raises. -/
def cellPyStr : Cell → Except String String
  | .str s => .ok s
  | _ => .error "TypeError: expected str"

/-- Result dictionary of lines 66-70: two one-entry rank-keyed dicts and
the box-office frame. -/
structure MovieResult where
  budgetEntry : Int × String
  ratingEntry : Int × String
  box_office : List BoxOfficeRow
deriving DecidableEq, Repr

/-- Sequential fallible traversal: the Python behaviour of a loop (or a
column-wise pandas operation) that raises at the first failing element. -/
def mapExcept {ε α β : Type} (g : α → Except ε β) : List α → Except ε (List β)
  | [] => .ok []
  | a :: l =>
    match g a with
    | .error e => .error e
    | .ok b =>
      match mapExcept g l with
      | .error e => .error e
      | .ok bs => .ok (b :: bs)

def mapOption {α β : Type} (g : α → Option β) : List α → Option (List β)
  | [] => some []
  | a :: l =>
    match g a with
    | none => none
    | some b =>
      match mapOption g l with
      | none => none
      | some bs => some (b :: bs)

/-- movie_scraper.py lines 59-72.  Neither per-movie `requests.get` is
followed by `raise_for_status`, so only the body is consumed. -/
def get_budget_rating_box_office (w : World) (root_html : String) (movieCell : Cell)
    (rank : Int) : Except String MovieResult :=
  match cellPyStr movieCell with
  | .error e => .error e
  | .ok movie =>
    match get_summary_endpoint movie root_html with
    | .error e => .error e
    | .ok summary_endpoint =>
      match get_box_office_stats movie rank (w.readHtml (w.http (ROOT_LINK ++ "/" ++
          pyReplace summary_endpoint "#tab=summary" "#tab=box-office")).body) with
      | .error e => .error e
      | .ok stats =>
        .ok { budgetEntry :=
                (rank, get_budget movie (w.http (ROOT_LINK ++ "/" ++ summary_endpoint)).body),
              ratingEntry :=
                (rank, get_rating movie (w.http (ROOT_LINK ++ "/" ++ summary_endpoint)).body),
              box_office := stats }

/-! ### Thread pool
`ThreadPoolExecutor.map` hands results back in submission order no
matter in which order the workers finish.  The completion order is the
schedule `sched`; every completed task is recorded with its submission
index, and collection walks the submission indices in order. -/

def executorTasks {α β : Type} (f : α → β) (xs : List α) (sched : List Nat) :
    List (Nat × β) :=
  sched.filterMap fun i => (xs[i]?).map fun a => (i, f a)

/-- `none` only when the schedule never completes some submitted task; a
real executor always completes (or fails) every task, so the theorems
quantify over schedules that are permutations of the task indices. -/
def executorCollect {α β : Type} (f : α → β) (xs : List α) (sched : List Nat) :
    Option (List β) :=
  mapOption (fun i => (executorTasks f xs sched).lookup i) (List.range xs.length)

/-! ### Listing parsing (main, lines 80-82) -/

/-- `astype(int)` over a cell. -/
def astypeInt : Cell → Except String Int
  | .num n => .ok n
  | .str s =>
    match s.toInt? with
    | some n => .ok n
    | none => .error "ValueError: invalid literal for int"
  | .na => .error "ValueError: cannot convert NaN to integer"

structure Listing where
  movies : Table
  rankIdx : Nat
  movieIdx : Nat
  movieCells : List Cell
  ranks : List Int
deriving DecidableEq, Repr

/-- Lines 80-81 plus the two column reads of line 89: the first parsed
table, with its last two (totals) rows dropped and the Rank column cast
to integers in place. -/
def parseListing (w : World) (root_html : String) : Except String Listing :=
  match (w.readHtml root_html).head? with
  | none => .error "ValueError: No tables found"
  | some t0 =>
    match t0.columns.indexOf? "Rank" with
    | none => .error "KeyError: Rank"
    | some rankIdx =>
      match mapExcept (fun r => astypeInt (r.getD rankIdx .na))
          (t0.rows.take (t0.rows.length - 2)) with
      | .error e => .error e
      | .ok ranks =>
        match t0.columns.indexOf? "Movie" with
        | none => .error "KeyError: Movie"
        | some movieIdx =>
          .ok { movies := ⟨t0.columns,
                  ((t0.rows.take (t0.rows.length - 2)).zip ranks).map fun p =>
                    p.1.set rankIdx (.num p.2)⟩,
                rankIdx := rankIdx, movieIdx := movieIdx,
                movieCells := (((t0.rows.take (t0.rows.length - 2)).zip ranks).map fun p =>
                    p.1.set rankIdx (.num p.2)).map (fun r => r.getD movieIdx .na),
                ranks := ranks }

/-! ### Aggregation (main, lines 94-106) -/

/-- Python `dict` update `d |= entry`: an existing key keeps its
position and takes the new value, a new key is appended. -/
def dictUpsert {β : Type} (d : List (Int × β)) (k : Int) (v : β) : List (Int × β) :=
  if d.any (fun p => p.1 == k) then
    d.map fun p => if p.1 == k then (k, v) else p
  else d ++ [(k, v)]

/-- Lines 90-91 and 94-98: the two rank-keyed dicts built with `|=` and
their column-wise concatenation.  Both dicts receive exactly the same
key in the same step (the worker's rank), so their key sequences always
coincide and `pd.concat(..., axis=1)` pairs them entry by entry. -/
def budgetRatingTable (results : List MovieResult) : List (Int × String × String) :=
  results.foldl
    (fun d res => dictUpsert d res.budgetEntry.1 (res.budgetEntry.2, res.ratingEntry.2)) []

/-- One row of the frame `movies.merge(budget_and_rating, on="Rank")`. -/
structure MovieRec where
  row : List Cell
  rank : Int
  budget : String
  rating : String
deriving DecidableEq, Repr

/-- Message raised by `pandas.merge(..., validate="many_to_one")`. -/
def mergeErrorMsg : String :=
  "MergeError: Merge keys are not unique in right dataset; not a many-to-one merge"

/-- Line 99: inner join of the listing frame against the budget/rating
frame on Rank.  `validate="many_to_one"` checks only that the right
keys are unique; unmatched left rows are silently dropped, and the
output keeps the left row order. -/
def mergeBudgetRating (movies : Table) (rankIdx : Nat)
    (br : List (Int × String × String)) : Except String (List MovieRec) :=
  if (br.map (fun e => e.1)).Nodup then
    .ok (movies.rows.filterMap fun r =>
      (br.find? fun e => Cell.num e.1 == r.getD rankIdx .na).map fun e =>
        { row := r, rank := e.1, budget := e.2.1, rating := e.2.2 })
  else .error mergeErrorMsg

/-- Line 101: inner join of the concatenated box-office rows against the
combined movie frame on Rank, again validated many-to-one on the right
side only. -/
def mergeBoxMovies (box : List BoxOfficeRow) (recs : List MovieRec) :
    Except String (List (BoxOfficeRow × MovieRec)) :=
  if (recs.map (fun e => e.rank)).Nodup then
    .ok (box.filterMap fun b => (recs.find? fun e => e.rank == b.rank).map fun e => (b, e))
  else .error mergeErrorMsg

/-- `pd.concat(box_office, axis=0)` keeps collection order. -/
def concatBoxOffice (results : List MovieResult) : List BoxOfficeRow :=
  (results.map (fun res => res.box_office)).flatten

/-- Sort key derived on line 104: `pd.Timestamp(date) if date != "N/A"
else date`.  A numeric cell (only the `0.0` of `fillna`) converts to an
epoch Timestamp; the string  N/A  stays a string; a `NaN` would become
`NaT` (it cannot occur: every frame cell was filled or is a sentinel). -/
inductive DateKey where
  | ts : Int → DateKey
  | nat : DateKey
  | naStr : DateKey
deriving DecidableEq, Repr

def dateKey (parseTs : String → Option Int) : Cell → Except String DateKey
  | .str s =>
    if s = "N/A" then .ok .naStr
    else
      match parseTs s with
      | some t => .ok (.ts t)
      | none => .error "ValueError: could not parse date"
  | .num n => .ok (.ts n)
  | .na => .ok .nat

/-- Line 105: `int(days) if days != "N/A" else days`. -/
inductive DaysOut where
  | int : Int → DaysOut
  | na : DaysOut
deriving DecidableEq, Repr

def castDays : Cell → Except String DaysOut
  | .num n => .ok (.int n)
  | .str s =>
    if s = "N/A" then .ok .na
    else
      match s.toInt? with
      | some n => .ok (.int n)
      | none => .error "ValueError: invalid literal for int"
  | .na => .error "ValueError: cannot convert float NaN to integer"

/-- Object-dtype comparison order used by the sort on line 106: pandas
factorises the mixed Timestamp/str key column with `safe_sort`, whose
mixed-type fallback orders all non-strings (Timestamps, and `NaT` last
among them) before all strings, strings lexicographically — here every
string is the single sentinel  N/A . -/
def dkLE : DateKey → DateKey → Bool
  | .ts a, .ts b => a ≤ b
  | .ts _, .nat => true
  | .ts _, .naStr => true
  | .nat, .ts _ => false
  | .nat, .nat => true
  | .nat, .naStr => true
  | .naStr, .naStr => true
  | .naStr, _ => false

/-- Final output row (the projected column set of lines 101-103, with
the derived sort key already dropped). -/
structure ReportRow where
  rank : Int
  movie : Cell
  production_budget : String
  mpaa_rating : String
  genre : Cell
  date : Cell
  gross : Cell
  theaters : Cell
  days : DaysOut
deriving DecidableEq, Repr

/-- `sort_values(by=["Rank", "date_for_sorting"])`: primary key Rank
ascending, secondary key the derived date key. -/
def rowLE (a b : ReportRow × DateKey) : Bool :=
  a.1.rank < b.1.rank || (a.1.rank == b.1.rank && dkLE a.2 b.2)

/-- Stable insertion: the new element (earlier in the original order)
goes in front of the first existing element it is `le`-below-or-equal
to.  `np.lexsort` is stable, and a stable sort for a total preorder is
unique, so any stable algorithm reproduces the pandas order. -/
def stableInsert {α : Type} (le : α → α → Bool) (a : α) : List α → List α
  | [] => [a]
  | b :: bs => if le a b then a :: b :: bs else b :: stableInsert le a bs

def stableSort {α : Type} (le : α → α → Bool) (xs : List α) : List α :=
  xs.foldr (stableInsert le) []

/-- Projection of lines 101-105 zipping the merged rows with their
derived sort keys and cast day counts. -/
def buildRows (movieIdx genreIdx : Nat) :
    List (BoxOfficeRow × MovieRec) → List DateKey → List DaysOut →
      List (ReportRow × DateKey)
  | m :: ms, k :: ks, d :: ds =>
    ({ rank := m.1.rank, movie := m.2.row.getD movieIdx .na,
       production_budget := m.2.budget, mpaa_rating := m.2.rating,
       genre := m.2.row.getD genreIdx .na, date := m.1.date, gross := m.1.gross,
       theaters := m.1.theaters, days := d }, k) :: buildRows movieIdx genreIdx ms ks ds
  | _, _, _ => []

/-- Lines 94-106: both validated merges, the projection, the derived
sort key, the Days cast, the sort, and the drop of the sort key. -/
def aggregate (w : World) (lst : Listing) (results : List MovieResult) :
    Except String (List ReportRow) :=
  match mergeBudgetRating lst.movies lst.rankIdx (budgetRatingTable results) with
  | .error e => .error e
  | .ok movieRecs =>
    if results.isEmpty then .error "ValueError: No objects to concatenate"
    else
      match mergeBoxMovies (concatBoxOffice results) movieRecs with
      | .error e => .error e
      | .ok merged =>
        match lst.movies.columns.indexOf? "Genre" with
        | none => .error "KeyError: Genre"
        | some genreIdx =>
          match mapExcept (fun p => dateKey w.parseTs p.1.date) merged with
          | .error e => .error e
          | .ok keys =>
            match mapExcept (fun p => castDays p.1.days) merged with
            | .error e => .error e
            | .ok dayCol =>
              .ok ((stableSort rowLE
                (buildRows lst.movieIdx genreIdx merged keys dayCol)).map (fun p => p.1))

/-! ### CSV emission (`to_csv`, line 106-108) -/

def csvCell : Cell → String
  | .na => ""
  | .num n => toString n
  | .str s => s

def csvDays : DaysOut → String
  | .int n => toString n
  | .na => "N/A"

/-- Minimal-quoting CSV field encoding used by `to_csv`. -/
def csvQuote (s : String) : String :=
  if s.data.any (fun c => c = ',' || c = '"' || c = '\n' || c = '\r') then
    "\"" ++ String.mk (s.data.foldr (fun c acc =>
      (if c = '"' then ['"', '"'] else [c]) ++ acc) []) ++ "\""
  else s

def csvHeader : String := "Rank,Movie,Production Budget,MPAA Rating,Genre,Date,Gross,Theaters,Days"

def csvRow (r : ReportRow) : String :=
  String.intercalate ","
    ([toString r.rank, csvCell r.movie, r.production_budget, r.mpaa_rating,
      csvCell r.genre, csvCell r.date, csvCell r.gross, csvCell r.theaters,
      csvDays r.days].map csvQuote)

def toCsv (rows : List ReportRow) : String :=
  String.join ((csvHeader :: rows.map csvRow).map (fun line => line ++ "\n"))

/-! ### The whole run -/

/-- Lines 17-20: the module-level root fetch, the only one followed by
`raise_for_status`, and the listing parse of lines 80-82. -/
def fetchListing (w : World) : Except String (String × Listing) :=
  match raise_for_status (w.http rootUrl) with
  | .error e => .error e
  | .ok _ =>
    match parseListing w (w.http rootUrl).body with
    | .error e => .error e
    | .ok lst => .ok ((w.http rootUrl).body, lst)

/-- Lines 88-92: the worker pool over `zip(movies["Movie"],
movies["Rank"])`; a worker exception is re-raised at collection time, in
submission order. -/
def pipelineResults (w : World) (root_html : String) (lst : Listing)
    (sched : List Nat) : Except String (List MovieResult) :=
  match executorCollect (fun p => get_budget_rating_box_office w root_html p.1 p.2)
      (lst.movieCells.zip lst.ranks) sched with
  | none => .error "SchedulerError: a submitted task never completed"
  | some outcomes => mapExcept (fun o => o) outcomes

/-- The full script (`main` plus the module-level fetch), producing the
final report rows. -/
def pipeline (w : World) (sched : List Nat) : Except String (List ReportRow) :=
  match fetchListing w with
  | .error e => .error e
  | .ok hl =>
    match pipelineResults w hl.1 hl.2 sched with
    | .error e => .error e
    | .ok results => aggregate w hl.2 results

/-- The produced CSV file content. -/
def mainCsv (w : World) (sched : List Nat) : Except String String :=
  (pipeline w sched).map toCsv

/-- Number of tasks submitted to the pool for a given world. -/
def taskCount (w : World) : Nat :=
  match fetchListing w with
  | .ok hl => (hl.2.movieCells.zip hl.2.ranks).length
  | .error _ => 0

/-! ### Concrete worlds used to instantiate the theorems -/

def rootBody : String :=
  "<a href=\"/m/alpha#tab=summary\">Alpha</a>\n<a href=\"/m/beta#tab=summary\">Beta</a>"

def listingTable : Table :=
  ⟨["Rank", "Movie", "Genre"],
   [[.num 1, .str "Alpha", .str "Action"],
    [.num 2, .str "Beta", .str "Drama"],
    [.num 0, .str "totals", .str "-"],
    [.num 0, .str "totals", .str "-"]]⟩

def alphaSummaryUrl : String := ROOT_LINK ++ "/" ++ "/m/alpha#tab=summary"

def betaSummaryUrl : String := ROOT_LINK ++ "/" ++ "/m/beta#tab=summary"

def alphaBoxUrl : String := ROOT_LINK ++ "/" ++ "/m/alpha#tab=box-office"

def betaBoxUrl : String := ROOT_LINK ++ "/" ++ "/m/beta#tab=box-office"

def alphaSummaryBody : String :=
  "Production&nbsp;Budget: $170,000,000\nMPAA&nbsp;Rating: x\nby <a href=q>PG-13</a>"

/-- Box-office table for Alpha: dates arrive out of order and one row
carries a textual  N/A  date, giving a mixture of parseable and
sentinel dates inside one rank; one `NaN` cell exercises `fillna`. -/
def alphaBoxTable : Table :=
  ⟨wantedColumns,
   [[.str "2022-05-28", .num 1, .str "$90", .na, .na, .num 4000, .str "$22", .str "$190", .num 2],
    [.str "N/A", .num 1, .str "$1", .num 0, .num 0, .num 1, .str "$1", .str "$191", .num 3],
    [.str "2022-05-27", .num 1, .str "$100", .num 0, .num 0, .num 4000, .str "$25", .str "$100", .num 1]]⟩

/-- The box-office page of Beta holds one table, but not a matching
one, so the extractor falls back to the sentinel row. -/
def betaBoxTables : List Table := [⟨["x"], [[.str "y"]]⟩]

def goodParseTs : String → Option Int := fun s =>
  if s = "2022-05-27" then some 100 else if s = "2022-05-28" then some 101 else none

def goodReadHtml : String → List Table := fun s =>
  if s = rootBody then [listingTable]
  else if s = "alpha box page" then [alphaBoxTable]
  else if s = "beta box page" then betaBoxTables
  else []

def goodHttp : String → Response := fun u =>
  if u = rootUrl then ⟨200, rootBody⟩
  else if u = alphaSummaryUrl then ⟨200, alphaSummaryBody⟩
  else if u = alphaBoxUrl then ⟨200, "alpha box page"⟩
  else if u = betaBoxUrl then ⟨200, "beta box page"⟩
  else ⟨200, ""⟩

/-- Happy-path world: two movies, a matched table with out-of-order and
sentinel dates, and a sentinel fallback for the second movie. -/
def wGood : World := ⟨goodHttp, goodReadHtml, goodParseTs⟩

/-- Same pages, but every per-movie response carries a server-error
status; only the root fetch stays successful. -/
def wPerMovie500 : World :=
  { wGood with http := fun u => if u = rootUrl then goodHttp u else ⟨500, (goodHttp u).body⟩ }

/-- Same world with a failing root fetch. -/
def wRoot404 : World := { wGood with http := fun u =>
  if u = rootUrl then ⟨404, (goodHttp u).body⟩ else goodHttp u }

/-- Single-movie world whose (unique) matching box-office table has no
data row at all: the extractor returns a zero-row frame. -/
def emptyBoxTable : Table := ⟨wantedColumns, []⟩

def rootBodyC1 : String := "<a href=\"/m/alpha#tab=summary\">Alpha</a>"

def listingC1 : Table :=
  ⟨["Rank", "Movie", "Genre"],
   [[.num 1, .str "Alpha", .str "Action"],
    [.num 0, .str "totals", .str "-"],
    [.num 0, .str "totals", .str "-"]]⟩

def wEmptyBox : World :=
  ⟨fun u =>
      if u = rootUrl then ⟨200, rootBodyC1⟩
      else if u = alphaBoxUrl then ⟨200, "alpha box page"⟩
      else ⟨200, ""⟩,
    fun s =>
      if s = rootBodyC1 then [listingC1]
      else if s = "alpha box page" then [emptyBoxTable]
      else [],
    goodParseTs⟩

/-- Two listed movies share rank 1 and both box-office pages carry a
matching but empty table, so no box-office row exists at all. -/
def rootBodyDup : String :=
  "<a href=\"/m/alpha#tab=summary\">Alpha</a>\n<a href=\"/m/beta#tab=summary\">Beta</a>"

def listingDup : Table :=
  ⟨["Rank", "Movie", "Genre"],
   [[.num 1, .str "Alpha", .str "Action"],
    [.num 1, .str "Beta", .str "Drama"],
    [.num 0, .str "totals", .str "-"],
    [.num 0, .str "totals", .str "-"]]⟩

def wDupRank : World :=
  ⟨fun u =>
      if u = rootUrl then ⟨200, rootBodyDup⟩
      else if u = alphaBoxUrl then ⟨200, "alpha box page"⟩
      else if u = betaBoxUrl then ⟨200, "beta box page"⟩
      else ⟨200, ""⟩,
    fun s =>
      if s = rootBodyDup then [listingDup]
      else if s = "alpha box page" then [emptyBoxTable]
      else if s = "beta box page" then [emptyBoxTable]
      else [],
    goodParseTs⟩

/-- Root listing holding an anchor whose text merely starts with the
sought title, before an anchor whose text is exactly the title. -/
def c10Root : String :=
  "<a href=\"/movie/alphaville#tab=summary\">Alphaville</a>\n<a href=\"/movie/alpha#tab=summary\">Alpha</a>"

/-- Summary page on which the budget pattern captures a digit-free
amount and the rating pattern captures an empty anchor text. -/
def c4input : String :=
  "Production&nbsp;Budget: blah $,\nMPAA&nbsp;Rating: x\nq<a href=z></a>"

/-- Spec-side definition (from the specification text, not the code):
a well-formed currency string is a dollar sign followed by digits with
optional thousands separators. -/
def specCurrencyFormat (s : String) : Bool :=
  match s.data with
  | '$' :: c :: rest => c.isDigit && (c :: rest).all fun d => d.isDigit || d = ','
  | _ => false

/-- World whose per-movie pages are unchanged but whose statuses are
overwritten with success; used to state that the script never looks at
a per-movie status. -/
def scrubStatuses (w : World) : World :=
  { w with http := fun u =>
      if u = rootUrl then w.http u else ⟨200, (w.http u).body⟩ }

/-- Parsed listing of `wGood` (and of `wPerMovie500`). -/
def wGoodListing : Listing :=
  { movies := ⟨["Rank", "Movie", "Genre"],
      [[.num 1, .str "Alpha", .str "Action"], [.num 2, .str "Beta", .str "Drama"]]⟩,
    rankIdx := 0, movieIdx := 1,
    movieCells := [.str "Alpha", .str "Beta"], ranks := [1, 2] }

/-- Worker results of `wGood`. -/
def wGoodResults : List MovieResult :=
  [{ budgetEntry := (1, "$170,000,000"), ratingEntry := (1, "PG-13"),
     box_office :=
       [{ date := .str "2022-05-28", gross := .str "$90", theaters := .num 4000,
          days := .num 2, rank := 1 },
        { date := .str "N/A", gross := .str "$1", theaters := .num 1,
          days := .num 3, rank := 1 },
        { date := .str "2022-05-27", gross := .str "$100", theaters := .num 4000,
          days := .num 1, rank := 1 }] },
   { budgetEntry := (2, "N/A"), ratingEntry := (2, "N/A"),
     box_office := [sentinelRow 2] }]

/-- Final report of `wGood`: rank 1 rows in ascending date order with
the sentinel-dated row after the real dates, then the rank 2 row. -/
def wGoodRows : List ReportRow :=
  [{ rank := 1, movie := .str "Alpha", production_budget := "$170,000,000",
     mpaa_rating := "PG-13", genre := .str "Action", date := .str "2022-05-27",
     gross := .str "$100", theaters := .num 4000, days := .int 1 },
   { rank := 1, movie := .str "Alpha", production_budget := "$170,000,000",
     mpaa_rating := "PG-13", genre := .str "Action", date := .str "2022-05-28",
     gross := .str "$90", theaters := .num 4000, days := .int 2 },
   { rank := 1, movie := .str "Alpha", production_budget := "$170,000,000",
     mpaa_rating := "PG-13", genre := .str "Action", date := .str "N/A",
     gross := .str "$1", theaters := .num 1, days := .int 3 },
   { rank := 2, movie := .str "Beta", production_budget := "N/A",
     mpaa_rating := "N/A", genre := .str "Drama", date := .str "N/A",
     gross := .str "N/A", theaters := .str "N/A", days := .na }]

/-- Parsed listing of `wDupRank`: two movies share rank 1. -/
def dupListing : Listing :=
  { movies := ⟨["Rank", "Movie", "Genre"],
      [[.num 1, .str "Alpha", .str "Action"], [.num 1, .str "Beta", .str "Drama"]]⟩,
    rankIdx := 0, movieIdx := 1,
    movieCells := [.str "Alpha", .str "Beta"], ranks := [1, 1] }

/-- Worker results of `wDupRank`: both matched box-office tables are
empty, so no box-office row exists anywhere. -/
def dupResults : List MovieResult :=
  [{ budgetEntry := (1, "N/A"), ratingEntry := (1, "N/A"), box_office := [] },
   { budgetEntry := (1, "N/A"), ratingEntry := (1, "N/A"), box_office := [] }]

/-- Parsed listing of `wEmptyBox`. -/
def emptyBoxListing : Listing :=
  { movies := ⟨["Rank", "Movie", "Genre"],
      [[.num 1, .str "Alpha", .str "Action"]]⟩,
    rankIdx := 0, movieIdx := 1,
    movieCells := [.str "Alpha"], ranks := [1] }

end MovieScraper

deriving instance DecidableEq for Except

namespace MovieScraper

/-! ## Table selection (claims C3 and C8) -/

theorem wantedTable_true {t : Table} (h : t.columns = wantedColumns) :
    wantedTable t = true := by
  simp [wantedTable, h]

theorem wantedTable_false {t : Table} (h : t.columns ≠ wantedColumns) :
    wantedTable t = false := by
  simp [wantedTable]
  intro _
  exact h

theorem find?_wanted_append {pre suf : List Table} {t : Table}
    (hpre : ∀ u ∈ pre, wantedTable u = false) (ht : wantedTable t = true) :
    (pre ++ t :: suf).find? wantedTable = some t := by
  induction pre with
  | nil => simp [List.find?, ht]
  | cons u us ih =>
    have hu := hpre u (by simp)
    have hrest := ih fun v hv => hpre v (by simp [hv])
    simpa [List.find?, hu] using hrest

/-- C3 (amended): when the box-office page holds at least one table but
none with the expected header sequence, the extractor returns exactly
one sentinel row: rank preserved, every other field the string N/A.
(The claim as frozen also covers a page with no table at all; there
`pd.read_html` raises instead — see the counterexample.) -/
theorem c3_sentinel_for_unmatched (movie : String) (rank : Int) (tables : List Table)
    (hne : tables ≠ []) (h : ∀ t ∈ tables, t.columns ≠ wantedColumns) :
    get_box_office_stats movie rank tables = .ok [sentinelRow rank] := by
  cases tables with
  | nil => exact absurd rfl hne
  | cons a l =>
    have hfind : (a :: l).find? wantedTable = none :=
      List.find?_eq_none.mpr fun t ht => by
        rw [wantedTable_false (h t ht)]
        exact Bool.false_ne_true
    simp [get_box_office_stats, hfind]

/-- C3 witness: a page with one non-matching table yields the sentinel. -/
theorem c3_sentinel_witness :
    get_box_office_stats "Beta" 2 betaBoxTables = .ok [sentinelRow 2] :=
  c3_sentinel_for_unmatched "Beta" 2 betaBoxTables (by decide) (by decide)

/-- C3 (counterexample): a box-office page with no table at all also
contains no table with the expected headers, yet the extractor raises
the `pd.read_html` error instead of emitting the sentinel row. -/
theorem c3_counterexample :
    get_box_office_stats "Alpha" 1 [] = .error "ValueError: No tables found" ∧
    get_box_office_stats "Alpha" 1 [] ≠ .ok [sentinelRow 1] := by decide

/-- C8: when some table matches the expected header sequence, the first
such table is returned, projected to Date, Gross, Theaters, Days (the
positions those names hold in the matched header), missing cells filled
with 0.0, and every row tagged with the movie's rank. -/
theorem c8_first_matching_table (movie : String) (rank : Int) (pre suf : List Table)
    (t : Table) (hpre : ∀ u ∈ pre, u.columns ≠ wantedColumns)
    (ht : t.columns = wantedColumns) :
    get_box_office_stats movie rank (pre ++ t :: suf) =
      .ok (t.rows.map (projectBoxRow rank)) ∧
    ∀ b ∈ t.rows.map (projectBoxRow rank), b.rank = rank := by
  constructor
  · have hfind :=
      @find?_wanted_append pre suf t (fun u hu => wantedTable_false (hpre u hu))
        (wantedTable_true ht)
    have hne : (pre ++ t :: suf).isEmpty = false := by
      cases pre <;> rfl
    simp [get_box_office_stats, hfind, hne]
  · intro b hb
    rcases List.mem_map.mp hb with ⟨r, _, rfl⟩
    rfl

/-- C8 witness: one non-matching table is skipped, the matching table is
projected (NaN cells of the first row become 0.0) and rank-tagged. -/
theorem c8_witness :
    get_box_office_stats "Alpha" 1 (⟨["x"], [[Cell.str "y"]]⟩ :: alphaBoxTable :: []) =
      .ok (alphaBoxTable.rows.map (projectBoxRow 1)) ∧
    ∀ b ∈ alphaBoxTable.rows.map (projectBoxRow 1), b.rank = 1 :=
  c8_first_matching_table "Alpha" 1 [⟨["x"], [[Cell.str "y"]]⟩] [] alphaBoxTable
    (by decide) (by decide)

/-! ## Endpoint lookup by leading anchor text (claim C10) -/

/-- C10: the lookup matches by leading anchor text, not exact text: in
`c10Root` the only anchor whose text is exactly  Alpha  is the second
one, yet the title  Alpha  (with or without a trailing ellipsis)
resolves to the endpoint of the first anchor, whose text  Alphaville
merely begins with the title — another movie's endpoint. -/
theorem c10_lookup_by_leading_text :
    get_summary_endpoint "Alpha" c10Root = .ok "/movie/alphaville#tab=summary" ∧
    get_summary_endpoint "Alpha…" c10Root = .ok "/movie/alphaville#tab=summary" ∧
    get_summary_endpoint "Alphaville" c10Root = .ok "/movie/alphaville#tab=summary" := by
  refine ⟨?_, ?_, ?_⟩ <;> · set_option maxRecDepth 10000 in decide

/-! ## Shape of the extracted budget and rating fields (claim C4) -/

theorem lastBudgetIn_shape : ∀ {l b : List Char}, lastBudgetIn l = some b →
    ∃ cs, cs ≠ [] ∧ (∀ c ∈ cs, isBudgetChar c = true) ∧ b = '$' :: cs := by
  intro l
  induction l with
  | nil => intro b h; simp [lastBudgetIn] at h
  | cons c cs ih =>
    intro b h
    unfold lastBudgetIn at h
    cases hrec : lastBudgetIn cs with
    | some b0 =>
      rw [hrec] at h
      cases h
      exact ih hrec
    | none =>
      rw [hrec] at h
      by_cases hc : c = '$'
      · rw [if_pos hc] at h
        cases htw : cs.takeWhile isBudgetChar with
        | nil => rw [htw] at h; cases h
        | cons d ds =>
          rw [htw] at h
          cases h
          refine ⟨d :: ds, by simp, ?_, rfl⟩
          intro x hx
          rw [← htw] at hx
          exact List.mem_takeWhile_imp hx
      · rw [if_neg hc] at h
        cases h

theorem searchBudget_shape : ∀ {l b : List Char}, searchBudget l = some b →
    ∃ cs, cs ≠ [] ∧ (∀ c ∈ cs, isBudgetChar c = true) ∧ b = '$' :: cs := by
  intro l
  induction l with
  | nil => intro b h; simp [searchBudget] at h
  | cons c cs ih =>
    intro b h
    unfold searchBudget at h
    by_cases hp : budgetLabel.isPrefixOf (c :: cs) = true
    · rw [if_pos hp] at h
      cases hbud : lastBudgetIn (((c :: cs).drop budgetLabel.length).takeWhile
          (fun d => d ≠ '\n')) with
      | some b0 =>
        rw [hbud] at h
        cases h
        exact lastBudgetIn_shape hbud
      | none =>
        rw [hbud] at h
        exact ih h
    · rw [if_neg hp] at h
      exact ih h

theorem ratingTail_sub {t r : List Char} (h : ratingTail t = some r) :
    ∀ c ∈ r, c ∈ t := by
  unfold ratingTail at h
  cases hn : lastSubAt closeAnchor t with
  | none => rw [hn] at h; cases h
  | some n =>
    rw [hn] at h
    cases h
    exact fun c hc => List.take_subset n t hc

theorem lastGtMatch_sub : ∀ {l r : List Char}, lastGtMatch l = some r →
    ∀ c ∈ r, c ∈ l := by
  intro l
  induction l with
  | nil => intro r h; simp [lastGtMatch] at h
  | cons c cs ih =>
    intro r h
    unfold lastGtMatch at h
    cases hrec : lastGtMatch cs with
    | some r0 =>
      rw [hrec] at h
      cases h
      exact fun x hx => List.mem_cons_of_mem c (ih hrec x hx)
    | none =>
      rw [hrec] at h
      by_cases hc : c = '>'
      · rw [if_pos hc] at h
        exact fun x hx => List.mem_cons_of_mem c (ratingTail_sub h x hx)
      · rw [if_neg hc] at h
        cases h

theorem ratingAfterOpen_sub : ∀ {l r : List Char}, ratingAfterOpen l = some r →
    ∀ c ∈ r, c ∈ l := by
  intro l
  cases l with
  | nil => intro r h; simp [ratingAfterOpen] at h
  | cons c cs =>
    intro r h x hx
    exact List.mem_cons_of_mem c (lastGtMatch_sub h x hx)

theorem lastOpenMatch_sub : ∀ {l r : List Char}, lastOpenMatch l = some r →
    ∀ c ∈ r, c ∈ l := by
  intro l
  induction l with
  | nil => intro r h; simp [lastOpenMatch] at h
  | cons c cs ih =>
    intro r h
    unfold lastOpenMatch at h
    cases hrec : lastOpenMatch cs with
    | some r0 =>
      rw [hrec] at h
      cases h
      exact fun x hx => List.mem_cons_of_mem c (ih hrec x hx)
    | none =>
      rw [hrec] at h
      by_cases hp : openAnchor.isPrefixOf (c :: cs) = true
      · rw [if_pos hp] at h
        intro x hx
        have := ratingAfterOpen_sub h x hx
        exact List.mem_cons_of_mem c (List.drop_subset 1 cs this)
      · rw [if_neg hp] at h
        cases h

theorem ratingInLine_sub : ∀ {l r : List Char}, ratingInLine l = some r →
    ∀ c ∈ r, c ∈ l := by
  intro l
  cases l with
  | nil => intro r h; simp [ratingInLine] at h
  | cons c cs =>
    intro r h x hx
    exact List.mem_cons_of_mem c (lastOpenMatch_sub h x hx)

theorem tryRatingAt_no_newline {s r : List Char} (h : tryRatingAt s = some r) :
    ∀ c ∈ r, c ≠ '\n' := by
  unfold tryRatingAt at h
  by_cases hp : ratingLabel.isPrefixOf s = true
  · rw [if_pos hp] at h
    cases hd : (s.drop ratingLabel.length).dropWhile (fun d => d ≠ '\n') with
    | nil => rw [hd] at h; cases h
    | cons c rest =>
      rw [hd] at h
      intro x hx
      have hmem := ratingInLine_sub h x hx
      have := List.mem_takeWhile_imp hmem
      simpa using this
  · rw [if_neg hp] at h
    cases h

theorem searchRating_no_newline : ∀ {l r : List Char}, searchRating l = some r →
    ∀ c ∈ r, c ≠ '\n' := by
  intro l
  induction l with
  | nil => intro r h; simp [searchRating] at h
  | cons c cs ih =>
    intro r h
    unfold searchRating at h
    cases htry : tryRatingAt (c :: cs) with
    | some r0 =>
      rw [htry] at h
      cases h
      exact tryRatingAt_no_newline htry
    | none =>
      rw [htry] at h
      exact ih h

/-- C4 (amended): the budget is either the sentinel  N/A  or a dollar
sign followed by a nonempty run of characters from the literal class
[0-9|,] of the pattern (so the budget is never empty, but digit-free
captures such as  $,  are accepted); the rating is either the sentinel
N/A  or the captured anchor text, a newline-free string that may be
empty.  Neither field can be null: both functions are total. -/
theorem c4_field_shapes (movie summary_response : String) :
    (get_budget movie summary_response = "N/A" ∨
      ∃ cs : List Char, cs ≠ [] ∧ (∀ c ∈ cs, isBudgetChar c = true) ∧
        get_budget movie summary_response = String.mk ('$' :: cs)) ∧
    (get_rating movie summary_response = "N/A" ∨
      ∃ rs : List Char, (∀ c ∈ rs, c ≠ '\n') ∧
        get_rating movie summary_response = String.mk rs) := by
  constructor
  · unfold get_budget
    cases hb : searchBudget summary_response.data with
    | none => left; rfl
    | some b =>
      right
      rcases searchBudget_shape hb with ⟨cs, hne, hall, rfl⟩
      exact ⟨cs, hne, hall, rfl⟩
  · unfold get_rating
    cases hr : searchRating summary_response.data with
    | none => left; rfl
    | some r =>
      right
      exact ⟨r, searchRating_no_newline hr, rfl⟩

/-- C4 (counterexample): on `c4input` the pattern captures the
digit-free budget  $,  — not a well-formed currency amount and not the
sentinel — and the rating capture is the empty string. -/
theorem c4_counterexample :
    get_budget "Movie" c4input = "$," ∧ specCurrencyFormat "$," = false ∧
    ("$," : String) ≠ "N/A" ∧ get_rating "Movie" c4input = "" := by
  set_option maxRecDepth 10000 in decide

/-! ## Endpoint lookup: success and failure conditions (claim C6) -/

theorem lastViableK_sound {pat : List Char} : ∀ {l : List Char} {k : Nat},
    lastViableK pat l = some k →
    (∀ c ∈ l.take k, c ≠ '\n') ∧ pat.isPrefixOf (l.drop k) = true := by
  intro l
  induction l with
  | nil =>
    intro k h
    unfold lastViableK at h
    by_cases hp : pat.isPrefixOf ([] : List Char) = true
    · rw [if_pos hp] at h
      cases h
      exact ⟨by simp, hp⟩
    · rw [if_neg hp] at h
      cases h
  | cons c cs ih =>
    intro k h
    unfold lastViableK at h
    by_cases hnl : c = '\n'
    · rw [if_pos hnl] at h
      by_cases hp : pat.isPrefixOf (c :: cs) = true
      · rw [if_pos hp] at h
        cases h
        exact ⟨by simp, hp⟩
      · rw [if_neg hp] at h
        cases h
    · rw [if_neg hnl] at h
      cases hrec : lastViableK pat cs with
      | some n =>
        rw [hrec] at h
        cases h
        rcases ih hrec with ⟨h1, h2⟩
        refine ⟨?_, by simpa [List.drop_succ_cons] using h2⟩
        intro x hx
        rw [List.take_succ_cons] at hx
        rcases List.mem_cons.mp hx with rfl | hx
        · exact hnl
        · exact h1 x hx
      | none =>
        rw [hrec] at h
        by_cases hp : pat.isPrefixOf (c :: cs) = true
        · rw [if_pos hp] at h
          cases h
          exact ⟨by simp, hp⟩
        · rw [if_neg hp] at h
          cases h

theorem lastViableK_isSome {pat : List Char} : ∀ {l : List Char} {k : Nat},
    (∀ c ∈ l.take k, c ≠ '\n') → pat.isPrefixOf (l.drop k) = true →
    (lastViableK pat l).isSome = true := by
  intro l
  induction l with
  | nil =>
    intro k _ h2
    rw [List.drop_nil] at h2
    unfold lastViableK
    rw [if_pos h2]
    rfl
  | cons c cs ih =>
    intro k h1 h2
    unfold lastViableK
    cases k with
    | zero =>
      rw [List.drop_zero] at h2
      by_cases hnl : c = '\n'
      · rw [if_pos hnl, if_pos h2]
        rfl
      · rw [if_neg hnl]
        cases hrec : lastViableK pat cs with
        | some n => rfl
        | none =>
          rw [if_pos h2]
          rfl
    | succ n =>
      have hc : c ≠ '\n' := h1 c (by rw [List.take_succ_cons]; exact List.mem_cons_self c _)
      rw [if_neg hc]
      have hrest : (lastViableK pat cs).isSome = true :=
        ih (fun x hx => h1 x (by rw [List.take_succ_cons]; exact List.mem_cons_of_mem c hx))
          (by rwa [List.drop_succ_cons] at h2)
      cases hrec : lastViableK pat cs with
      | some m => rfl
      | none => rw [hrec] at hrest; cases hrest

theorem tryAnchorAt_sound {t s e : List Char} (h : tryAnchorAt t s = some e) :
    ∃ k, summaryAnchorMatchAt t s 0 k ∧
      e = (s.drop anchorPre.length).take k ++ summaryMarker := by
  unfold tryAnchorAt at h
  by_cases hp : anchorPre.isPrefixOf s = true
  · rw [if_pos hp] at h
    cases hk : lastViableK (markerQuote ++ t) (s.drop anchorPre.length) with
    | none => rw [hk] at h; cases h
    | some k =>
      rw [hk] at h
      cases h
      rcases lastViableK_sound hk with ⟨h1, h2⟩
      exact ⟨k, ⟨by simpa using hp, by simpa using h1, by simpa using h2⟩, rfl⟩
  · rw [if_neg hp] at h
    cases h

theorem tryAnchorAt_of_match {t s : List Char} {k : Nat}
    (h : summaryAnchorMatchAt t s 0 k) : (tryAnchorAt t s).isSome = true := by
  rcases h with ⟨hp, h1, h2⟩
  rw [List.drop_zero] at hp h1 h2
  unfold tryAnchorAt
  rw [if_pos hp]
  have := lastViableK_isSome h1 h2
  cases hk : lastViableK (markerQuote ++ t) (s.drop anchorPre.length) with
  | none => rw [hk] at this; cases this
  | some m => rfl

theorem searchSummaryAnchor_sound {t : List Char} : ∀ {s e : List Char},
    searchSummaryAnchor t s = some e →
    ∃ i k, summaryAnchorMatchAt t s i k ∧
      e = ((s.drop i).drop anchorPre.length).take k ++ summaryMarker := by
  intro s
  induction s with
  | nil => intro e h; simp [searchSummaryAnchor] at h
  | cons c cs ih =>
    intro e h
    unfold searchSummaryAnchor at h
    cases htry : tryAnchorAt t (c :: cs) with
    | some e0 =>
      rw [htry] at h
      cases h
      rcases tryAnchorAt_sound htry with ⟨k, hm, hcap⟩
      exact ⟨0, k, hm, hcap⟩
    | none =>
      rw [htry] at h
      rcases ih h with ⟨i, k, hm, hcap⟩
      exact ⟨i + 1, k, by simpa [List.drop_succ_cons] using hm,
        by simpa [List.drop_succ_cons] using hcap⟩

theorem searchSummaryAnchor_none {t : List Char} : ∀ {s : List Char},
    searchSummaryAnchor t s = none → ∀ i k, ¬ summaryAnchorMatchAt t s i k := by
  intro s
  induction s with
  | nil =>
    intro _ i k hm
    rcases hm with ⟨hp, -, -⟩
    rw [List.drop_nil] at hp
    revert hp
    decide
  | cons c cs ih =>
    intro h i k hm
    unfold searchSummaryAnchor at h
    cases htry : tryAnchorAt t (c :: cs) with
    | some e0 => rw [htry] at h; cases h
    | none =>
      rw [htry] at h
      cases i with
      | zero =>
        have := tryAnchorAt_of_match hm
        rw [htry] at this
        cases this
      | succ i =>
        exact ih h i k (by simpa [List.drop_succ_cons] using hm)

/-- C6: the lookup fails with the fatal error exactly when no position
of the root HTML matches the endpoint pattern built from the
ellipsis-stripped title, and a successful lookup returns the endpoint
captured by such a match (greedy capture ending in the summary
marker). -/
theorem c6_endpoint_lookup (movie root_html : String) :
    (get_summary_endpoint movie root_html =
        .error ("Got no summary response for movie: " ++ movie) ↔
      ¬ hasSummaryAnchor (stripEllipsis movie.data) root_html.data) ∧
    (∀ e, get_summary_endpoint movie root_html = .ok e →
      ∃ i k, summaryAnchorMatchAt (stripEllipsis movie.data) root_html.data i k ∧
        e.data = ((root_html.data.drop i).drop anchorPre.length).take k ++ summaryMarker) := by
  constructor
  · constructor
    · intro herr hhas
      rcases hhas with ⟨i, k, hm⟩
      unfold get_summary_endpoint at herr
      cases hs : searchSummaryAnchor (stripEllipsis movie.data) root_html.data with
      | some e =>
        rw [hs] at herr
        cases herr
      | none => exact searchSummaryAnchor_none hs i k hm
    · intro hno
      unfold get_summary_endpoint
      cases hs : searchSummaryAnchor (stripEllipsis movie.data) root_html.data with
      | some e =>
        exfalso
        rcases searchSummaryAnchor_sound hs with ⟨i, k, hm, -⟩
        exact hno ⟨i, k, hm⟩
      | none => rfl
  · intro e he
    unfold get_summary_endpoint at he
    cases hs : searchSummaryAnchor (stripEllipsis movie.data) root_html.data with
    | some e0 =>
      rw [hs] at he
      cases he
      rcases searchSummaryAnchor_sound hs with ⟨i, k, hm, hcap⟩
      exact ⟨i, k, hm, hcap⟩
    | none =>
      rw [hs] at he
      cases he

/-- C6 witness: a successful concrete lookup produces a match of the
declarative pattern. -/
theorem c6_witness : hasSummaryAnchor (stripEllipsis "Alpha".data) c10Root.data := by
  rcases (c6_endpoint_lookup "Alpha" c10Root).2 "/movie/alphaville#tab=summary"
      (by set_option maxRecDepth 10000 in decide) with ⟨i, k, hm, -⟩
  exact ⟨i, k, hm⟩

/-! ## Traversal inversions -/

theorem mapOption_forall₂ {α β : Type} {g : α → Option β} :
    ∀ {l : List α} {res : List β}, mapOption g l = some res →
      List.Forall₂ (fun a b => g a = some b) l res := by
  intro l
  induction l with
  | nil =>
    intro res h
    cases h
    exact List.Forall₂.nil
  | cons a l ih =>
    intro res h
    unfold mapOption at h
    cases hga : g a with
    | none => rw [hga] at h; cases h
    | some b =>
      rw [hga] at h
      cases hl : mapOption g l with
      | none => rw [hl] at h; cases h
      | some bs =>
        rw [hl] at h
        cases h
        exact List.Forall₂.cons hga (ih hl)

theorem mapExcept_forall₂ {ε α β : Type} {g : α → Except ε β} :
    ∀ {l : List α} {res : List β}, mapExcept g l = .ok res →
      List.Forall₂ (fun a b => g a = .ok b) l res := by
  intro l
  induction l with
  | nil =>
    intro res h
    cases h
    exact List.Forall₂.nil
  | cons a l ih =>
    intro res h
    unfold mapExcept at h
    cases hga : g a with
    | error e => rw [hga] at h; cases h
    | ok b =>
      rw [hga] at h
      cases hl : mapExcept g l with
      | error e => rw [hl] at h; cases h
      | ok bs =>
        rw [hl] at h
        cases h
        exact List.Forall₂.cons hga (ih hl)

theorem forall₂_mapExcept {ε α β : Type} {g : α → Except ε β} :
    ∀ {l : List α} {res : List β},
      List.Forall₂ (fun a b => g a = .ok b) l res → mapExcept g l = .ok res := by
  intro l
  induction l with
  | nil =>
    intro res h
    cases h
    rfl
  | cons a l ih =>
    intro res h
    cases h with
    | cons hab htail =>
      unfold mapExcept
      rw [hab, ih htail]

/-! ## Thread-pool collection (submission-order results) -/

theorem executorTasks_lookup {α β : Type} {f : α → β} {xs : List α} :
    ∀ {sched : List Nat} {i : Nat} {b : β},
      (executorTasks f xs sched).lookup i = some b →
      ∃ a, xs[i]? = some a ∧ b = f a := by
  intro sched
  induction sched with
  | nil => intro i b h; simp [executorTasks, List.lookup] at h
  | cons j js ih =>
    intro i b h
    unfold executorTasks at h
    rw [List.filterMap_cons] at h
    cases hj : xs[j]? with
    | none =>
      rw [hj] at h
      exact ih h
    | some a =>
      rw [hj] at h
      rw [Option.map_some'] at h
      rw [List.lookup] at h
      by_cases hij : (i == j) = true
      · rw [hij] at h
        cases h
        exact ⟨a, by rw [beq_iff_eq.mp hij]; exact hj, rfl⟩
      · have hf : (i == j) = false := by simpa using hij
        rw [hf] at h
        exact ih h

theorem executorTasks_lookup_mem {α β : Type} {f : α → β} {xs : List α} :
    ∀ {sched : List Nat} {i : Nat} {a : α}, i ∈ sched → xs[i]? = some a →
      (executorTasks f xs sched).lookup i = some (f a) := by
  intro sched
  induction sched with
  | nil => intro i a h; cases h
  | cons j js ih =>
    intro i a hmem ha
    unfold executorTasks
    rw [List.filterMap_cons]
    cases hj : xs[j]? with
    | none =>
      rcases List.mem_cons.mp hmem with rfl | hmem2
      · rw [ha] at hj; cases hj
      · exact ih hmem2 ha
    | some a2 =>
      rw [Option.map_some']
      rw [List.lookup]
      by_cases hij : (i == j) = true
      · rw [hij]
        have : i = j := beq_iff_eq.mp hij
        subst this
        rw [ha] at hj
        cases hj
        rfl
      · have hf : (i == j) = false := by simpa using hij
        rw [hf]
        rcases List.mem_cons.mp hmem with rfl | hmem2
        · exact absurd (by simp) hij
        · exact ih hmem2 ha

theorem mapOption_succ_shift {β : Type} (g : Nat → Option β) :
    ∀ l : List Nat, mapOption g (l.map Nat.succ) = mapOption (fun i => g (i + 1)) l := by
  intro l
  induction l with
  | nil => rfl
  | cons a l ih =>
    rw [List.map_cons]
    unfold mapOption
    rw [ih]

theorem mapOption_lookup_range {α β : Type} (f : α → β) :
    ∀ (xs : List α) (g : Nat → Option β),
      (∀ i a, xs[i]? = some a → g i = some (f a)) →
      mapOption g (List.range xs.length) = some (xs.map f) := by
  intro xs
  induction xs with
  | nil => intro g _; rfl
  | cons x xs ih =>
    intro g h
    rw [List.length_cons, List.range_succ_eq_map]
    unfold mapOption
    rw [mapOption_succ_shift g,
      ih (fun i => g (i + 1)) (fun i a hia => h (i + 1) a (by simpa using hia)),
      h 0 x (by simp)]
    rfl

theorem executorCollect_cover {α β : Type} (f : α → β) (xs : List α) (sched : List Nat)
    (hcov : ∀ i, i < xs.length → i ∈ sched) :
    executorCollect f xs sched = some (xs.map f) := by
  unfold executorCollect
  refine mapOption_lookup_range f xs _ (fun i a ha => ?_)
  have hi : i < xs.length := by
    by_contra hge
    rw [List.getElem?_eq_none (by omega)] at ha
    cases ha
  exact executorTasks_lookup_mem (hcov i hi) ha

theorem executorCollect_eq_map {α β : Type} {f : α → β} {xs : List α} {sched : List Nat}
    {res : List β} (h : executorCollect f xs sched = some res) : res = xs.map f := by
  unfold executorCollect at h
  have h2 := mapOption_forall₂ h
  rw [List.forall₂_iff_get] at h2
  rcases h2 with ⟨hlen, hget⟩
  refine List.ext_get (by simpa using hlen.symm) fun n h₁ h₂ => ?_
  have hn : n < (List.range xs.length).length := by simpa using h₂
  have := hget n hn h₁
  rw [List.get_range] at this
  rcases executorTasks_lookup this with ⟨a, ha, hb⟩
  have hnx : n < xs.length := by simpa using h₂
  have haa : a = xs[n] := by
    rw [List.getElem?_eq_getElem hnx] at ha
    exact (Option.some.inj ha).symm
  rw [hb, haa, List.get_eq_getElem, List.getElem_map]

/-! ## Forall₂ plumbing -/

theorem forall₂_compose {α β γ : Type} {R : α → β → Prop} {S : α → γ → Prop}
    {T : β → γ → Prop} :
    ∀ {l₁ : List α} {l₂ : List β} {l₃ : List γ},
      List.Forall₂ R l₁ l₂ → List.Forall₂ S l₁ l₃ →
      (∀ a b c, R a b → S a c → T b c) → List.Forall₂ T l₂ l₃ := by
  intro l₁
  induction l₁ with
  | nil =>
    intro l₂ l₃ h₁ h₂ _
    cases h₁
    cases h₂
    exact .nil
  | cons a l ih =>
    intro l₂ l₃ h₁ h₂ hT
    cases h₁ with
    | cons hab h₁ =>
      cases h₂ with
      | cons hac h₂ => exact .cons (hT _ _ _ hab hac) (ih h₁ h₂ hT)

theorem forall₂_map_eq {α β : Type} {f : α → β} :
    ∀ {l₁ : List α} {l₂ : List β},
      List.Forall₂ (fun a b => f a = b) l₁ l₂ → l₁.map f = l₂ := by
  intro l₁
  induction l₁ with
  | nil => intro l₂ h; cases h; rfl
  | cons a l ih =>
    intro l₂ h
    cases h with
    | cons hab htail => rw [List.map_cons, hab, ih htail]

theorem forall₂_mem_left {α β : Type} {R : α → β → Prop} :
    ∀ {l₁ : List α} {l₂ : List β}, List.Forall₂ R l₁ l₂ →
      ∀ {a}, a ∈ l₁ → ∃ b, b ∈ l₂ ∧ R a b := by
  intro l₁
  induction l₁ with
  | nil => intro l₂ _ a ha; cases ha
  | cons x l ih =>
    intro l₂ h a ha
    cases h with
    | cons hab htail =>
      rcases List.mem_cons.mp ha with rfl | ha2
      · exact ⟨_, List.mem_cons_self _ _, hab⟩
      · rcases ih htail ha2 with ⟨b, hb, hr⟩
        exact ⟨b, List.mem_cons_of_mem _ hb, hr⟩

theorem forall₂_zip_snd {α β : Type} :
    ∀ {l₁ : List α} {l₂ : List β}, l₁.length = l₂.length →
      List.Forall₂ (fun (x : α × β) k => x.2 = k) (l₁.zip l₂) l₂ := by
  intro l₁
  induction l₁ with
  | nil =>
    intro l₂ h
    cases l₂ with
    | nil => exact .nil
    | cons b l => cases h
  | cons a l ih =>
    intro l₂ h
    cases l₂ with
    | nil => cases h
    | cons b l₂ =>
      rw [List.zip_cons_cons]
      exact .cons rfl (ih (by simpa using h))

/-! ## Listing invariants -/

theorem astypeInt_getD_lt {r : List Cell} {i : Nat} {k : Int}
    (h : astypeInt (r.getD i Cell.na) = .ok k) : i < r.length := by
  by_contra hge
  rw [List.getD_eq_default _ _ (by omega)] at h
  cases h

theorem forall₂_set_ranks {rankIdx : Nat} :
    ∀ {rows0 : List (List Cell)} {ranks : List Int},
      List.Forall₂ (fun r k => astypeInt (r.getD rankIdx Cell.na) = .ok k) rows0 ranks →
      List.Forall₂ (fun r k => r.getD rankIdx Cell.na = Cell.num k)
        ((rows0.zip ranks).map fun p => p.1.set rankIdx (Cell.num p.2)) ranks := by
  intro rows0
  induction rows0 with
  | nil =>
    intro ranks h
    cases h
    exact .nil
  | cons r rows ih =>
    intro ranks h
    cases h with
    | cons hab htail =>
      rw [List.zip_cons_cons, List.map_cons]
      refine .cons ?_ (ih htail)
      have hlt : rankIdx < r.length := astypeInt_getD_lt hab
      rw [List.getD_eq_getElem?_getD, List.getElem?_set_self hlt]
      rfl

theorem parseListing_spec {w : World} {html : String} {lst : Listing}
    (h : parseListing w html = .ok lst) :
    List.Forall₂ (fun (r : List Cell) k => r.getD lst.rankIdx Cell.na = Cell.num k)
      lst.movies.rows lst.ranks ∧
    lst.movieCells.length = lst.ranks.length := by
  unfold parseListing at h
  split at h
  · cases h
  · split at h
    · cases h
    · split at h
      · cases h
      · split at h
        · cases h
        · cases h
          rename_i x3 t0 hhead x2 rankIdx hrank x1 ranks hmap x0 movieIdx hmovie
          have hfa := mapExcept_forall₂ hmap
          constructor
          · exact forall₂_set_ranks hfa
          · have hlen := hfa.length_eq
            simp [List.length_zip, hlen]

/-! ## Worker invariants -/

theorem box_stats_rank {m : String} {k : Int} {tables : List Table}
    {rows : List BoxOfficeRow} (h : get_box_office_stats m k tables = .ok rows) :
    ∀ b ∈ rows, b.rank = k := by
  unfold get_box_office_stats at h
  by_cases he : tables.isEmpty = true
  · rw [if_pos he] at h; cases h
  · rw [if_neg he] at h
    cases hf : tables.find? wantedTable with
    | some t =>
      rw [hf] at h
      cases h
      intro b hb
      rcases List.mem_map.mp hb with ⟨r, -, rfl⟩
      rfl
    | none =>
      rw [hf] at h
      cases h
      intro b hb
      rcases List.mem_singleton.mp hb with rfl
      rfl

theorem worker_rank {w : World} {root_html : String} {c : Cell} {k : Int}
    {res : MovieResult} (h : get_budget_rating_box_office w root_html c k = .ok res) :
    res.budgetEntry.1 = k ∧ ∀ b ∈ res.box_office, b.rank = k := by
  unfold get_budget_rating_box_office at h
  split at h
  · cases h
  · split at h
    · cases h
    · split at h
      · cases h
      · cases h
        rename_i x1 movie h1 x2 ep h2 x3 stats h3
        exact ⟨rfl, box_stats_rank h3⟩

/-! ## Dictionary (rank-keyed) invariants -/

theorem dictUpsert_keys {β : Type} (d : List (Int × β)) (k : Int) (v : β) :
    (dictUpsert d k v).map (fun p => p.1) =
      if d.any (fun p => p.1 == k) then d.map (fun p => p.1)
      else d.map (fun p => p.1) ++ [k] := by
  unfold dictUpsert
  by_cases hmem : d.any (fun p => p.1 == k) = true
  · rw [if_pos hmem, if_pos hmem, List.map_map]
    refine List.map_congr_left fun p _ => ?_
    by_cases hp : (p.1 == k) = true
    · simp only [Function.comp]
      rw [if_pos hp]
      exact (beq_iff_eq.mp hp).symm
    · simp only [Function.comp]
      rw [if_neg hp]
  · rw [if_neg hmem, if_neg hmem, List.map_append]
    rfl

theorem dictUpsert_keys_nodup {β : Type} {d : List (Int × β)} {k : Int} {v : β}
    (h : (d.map (fun p => p.1)).Nodup) :
    ((dictUpsert d k v).map (fun p => p.1)).Nodup := by
  rw [dictUpsert_keys]
  by_cases hmem : d.any (fun p => p.1 == k) = true
  · rwa [if_pos hmem]
  · rw [if_neg hmem]
    have hff : d.any (fun p => p.1 == k) = false := by
      cases hany : d.any (fun p => p.1 == k) with
      | false => rfl
      | true => exact absurd hany hmem
    have hf : ∀ p ∈ d, ¬(p.1 == k) = true := List.any_eq_false.mp hff
    have hk : k ∉ d.map (fun p => p.1) := by
      intro hkmem
      rcases List.mem_map.mp hkmem with ⟨p, hp, hpk⟩
      exact hf p hp (beq_iff_eq.mpr hpk)
    exact h.append (List.nodup_singleton k) fun a ha hb => by
      rcases List.mem_singleton.mp hb with rfl
      exact hk ha

theorem dictUpsert_mem_keys {β : Type} (d : List (Int × β)) (k : Int) (v : β) :
    k ∈ (dictUpsert d k v).map (fun p => p.1) := by
  rw [dictUpsert_keys]
  by_cases hmem : d.any (fun p => p.1 == k) = true
  · rw [if_pos hmem]
    rcases List.any_eq_true.mp hmem with ⟨p, hp, hpk⟩
    exact List.mem_map.mpr ⟨p, hp, beq_iff_eq.mp hpk⟩
  · rw [if_neg hmem]
    exact List.mem_append_right _ (List.mem_singleton_self k)

theorem dictUpsert_keys_mono {β : Type} {d : List (Int × β)} {k0 : Int} (k : Int) (v : β)
    (h : k0 ∈ d.map (fun p => p.1)) : k0 ∈ (dictUpsert d k v).map (fun p => p.1) := by
  rw [dictUpsert_keys]
  by_cases hmem : d.any (fun p => p.1 == k) = true
  · rwa [if_pos hmem]
  · rw [if_neg hmem]
    exact List.mem_append_left _ h

theorem budgetRatingTable_nodup_aux :
    ∀ (results : List MovieResult) (d : List (Int × String × String)),
      (d.map (fun p => p.1)).Nodup →
      (((results.foldl (fun d res =>
          dictUpsert d res.budgetEntry.1 (res.budgetEntry.2, res.ratingEntry.2)) d).map
        (fun p => p.1)).Nodup) := by
  intro results
  induction results with
  | nil => intro d h; exact h
  | cons res results ih =>
    intro d h
    exact ih _ (dictUpsert_keys_nodup h)

/-- The right-hand side of the first merge always has unique keys: it
is built as a Python dict. -/
theorem budgetRatingTable_nodup (results : List MovieResult) :
    ((budgetRatingTable results).map (fun p => p.1)).Nodup :=
  budgetRatingTable_nodup_aux results [] List.nodup_nil

theorem budgetRatingTable_mem_aux :
    ∀ (results : List MovieResult) (d : List (Int × String × String)) {k : Int},
      (k ∈ d.map (fun p => p.1) ∨ k ∈ results.map (fun r => r.budgetEntry.1)) →
      k ∈ ((results.foldl (fun d res =>
          dictUpsert d res.budgetEntry.1 (res.budgetEntry.2, res.ratingEntry.2)) d).map
        (fun p => p.1)) := by
  intro results
  induction results with
  | nil =>
    intro d k h
    rcases h with h | h
    · exact h
    · cases h
  | cons res results ih =>
    intro d k h
    refine ih _ ?_
    rcases h with h | h
    · exact Or.inl (dictUpsert_keys_mono _ _ h)
    · rw [List.map_cons] at h
      rcases List.mem_cons.mp h with rfl | h2
      · exact Or.inl (dictUpsert_mem_keys d _ _)
      · exact Or.inr h2

/-- Every rank produced by some worker is a key of the combined
budget/rating table. -/
theorem budgetRatingTable_mem {results : List MovieResult} {k : Int}
    (h : k ∈ results.map (fun r => r.budgetEntry.1)) :
    k ∈ (budgetRatingTable results).map (fun p => p.1) :=
  budgetRatingTable_mem_aux results [] (Or.inr h)

/-! ## Merge invariants -/

theorem mergeBudgetRating_ok {movies : Table} {rankIdx : Nat}
    {br : List (Int × String × String)} (h : (br.map (fun e => e.1)).Nodup) :
    mergeBudgetRating movies rankIdx br =
      .ok (movies.rows.filterMap fun r =>
        (br.find? fun e => Cell.num e.1 == r.getD rankIdx .na).map fun e =>
          { row := r, rank := e.1, budget := e.2.1, rating := e.2.2 }) := by
  unfold mergeBudgetRating
  rw [if_pos h]

theorem mergeBoxMovies_ok {box : List BoxOfficeRow} {recs : List MovieRec}
    (h : (recs.map (fun e => e.rank)).Nodup) :
    mergeBoxMovies box recs = .ok (box.filterMap fun b =>
      (recs.find? fun e => e.rank == b.rank).map fun e => (b, e)) := by
  unfold mergeBoxMovies
  rw [if_pos h]

theorem mergeBoxMovies_error {box : List BoxOfficeRow} {recs : List MovieRec}
    (h : ¬(recs.map (fun e => e.rank)).Nodup) :
    mergeBoxMovies box recs = .error mergeErrorMsg := by
  unfold mergeBoxMovies
  rw [if_neg h]

theorem mergeBoxMovies_mem {box : List BoxOfficeRow} {recs : List MovieRec}
    {merged : List (BoxOfficeRow × MovieRec)} (h : mergeBoxMovies box recs = .ok merged) :
    ∀ p ∈ merged, p.1 ∈ box ∧ p.2 ∈ recs ∧ p.2.rank = p.1.rank := by
  unfold mergeBoxMovies at h
  split at h
  · cases h
    intro p hp
    rcases List.mem_filterMap.mp hp with ⟨b, hb, hbp⟩
    cases hfind : recs.find? (fun e => e.rank == b.rank) with
    | none => rw [hfind] at hbp; cases hbp
    | some e =>
      rw [hfind] at hbp
      cases hbp
      have hpred := @List.find?_some MovieRec (fun e => e.rank == b.rank) e recs hfind
      exact ⟨hb, List.mem_of_find?_eq_some hfind, beq_iff_eq.mp hpred⟩
  · cases h

theorem mergeBoxMovies_cover {box : List BoxOfficeRow} {recs : List MovieRec}
    {merged : List (BoxOfficeRow × MovieRec)} (h : mergeBoxMovies box recs = .ok merged)
    {b : BoxOfficeRow} (hb : b ∈ box) (hex : ∃ e ∈ recs, e.rank = b.rank) :
    ∃ p ∈ merged, p.1 = b := by
  unfold mergeBoxMovies at h
  split at h
  · cases h
    rcases hex with ⟨e, he, her⟩
    have hsome : (recs.find? fun e => e.rank == b.rank).isSome :=
      List.find?_isSome.mpr ⟨e, he, beq_iff_eq.mpr her⟩
    cases hfind : recs.find? (fun e => e.rank == b.rank) with
    | none => rw [hfind] at hsome; cases hsome
    | some e2 =>
      refine ⟨(b, e2), List.mem_filterMap.mpr ⟨b, hb, ?_⟩, rfl⟩
      rw [hfind]
      rfl
  · cases h

theorem filterMap_recs_ranks {rankIdx : Nat} {br : List (Int × String × String)} :
    ∀ {rows : List (List Cell)} {ranks : List Int},
      List.Forall₂ (fun r k => r.getD rankIdx Cell.na = Cell.num k) rows ranks →
      (∀ k ∈ ranks, k ∈ br.map (fun e => e.1)) →
      (rows.filterMap fun r =>
        (br.find? fun e => Cell.num e.1 == r.getD rankIdx Cell.na).map fun e =>
          ({ row := r, rank := e.1, budget := e.2.1, rating := e.2.2 } : MovieRec)).map
        (fun e => e.rank) = ranks := by
  intro rows
  induction rows with
  | nil =>
    intro ranks h _
    cases h
    rfl
  | cons r rows ih =>
    intro ranks h hcov
    cases h with
    | cons hab htail =>
      rename_i k ranks2
      rw [List.filterMap_cons]
      have hk := hcov k (List.mem_cons_self _ _)
      rcases List.mem_map.mp hk with ⟨e, he, hek⟩
      have hsome : (br.find? fun e => Cell.num e.1 == r.getD rankIdx Cell.na).isSome := by
        refine List.find?_isSome.mpr ⟨e, he, ?_⟩
        rw [hab, hek]
        exact beq_iff_eq.mpr rfl
      cases hfind : br.find? (fun e => Cell.num e.1 == r.getD rankIdx Cell.na) with
      | none => rw [hfind] at hsome; cases hsome
      | some e0 =>
        have hp := List.find?_some hfind
        rw [hab] at hp
        have he0 : e0.1 = k := Cell.num.inj (beq_iff_eq.mp hp)
        rw [Option.map_some', List.map_cons, he0,
          ih htail fun k2 hk2 => hcov k2 (List.mem_cons_of_mem _ hk2)]

theorem mergeBudgetRating_ranks {movies : Table} {rankIdx : Nat}
    {br : List (Int × String × String)} {ranks : List Int}
    (hnd : (br.map (fun e => e.1)).Nodup)
    (hrows : List.Forall₂ (fun (r : List Cell) k => r.getD rankIdx Cell.na = Cell.num k)
      movies.rows ranks)
    (hcov : ∀ k ∈ ranks, k ∈ br.map (fun e => e.1)) :
    ∃ recs, mergeBudgetRating movies rankIdx br = .ok recs ∧
      recs.map (fun e => e.rank) = ranks := by
  rw [mergeBudgetRating_ok hnd]
  exact ⟨_, rfl, filterMap_recs_ranks hrows hcov⟩

/-! ## Pipeline-stage inversions -/

theorem fetchListing_inv {w : World} {hl : String × Listing}
    (h : fetchListing w = .ok hl) :
    parseListing w (w.http rootUrl).body = .ok hl.2 ∧ hl.1 = (w.http rootUrl).body := by
  unfold fetchListing at h
  split at h
  · cases h
  · split at h
    · cases h
    · cases h
      rename_i x1 lst hp
      exact ⟨hp, rfl⟩

theorem pipelineResults_spec {w : World} {root_html : String} {lst : Listing}
    {sched : List Nat} {results : List MovieResult}
    (h : pipelineResults w root_html lst sched = .ok results) :
    List.Forall₂ (fun (x : Cell × Int) res =>
        get_budget_rating_box_office w root_html x.1 x.2 = .ok res)
      (lst.movieCells.zip lst.ranks) results := by
  unfold pipelineResults at h
  split at h
  · cases h
  · rename_i outcomes hc
    have houts := executorCollect_eq_map hc
    subst houts
    have h2 := mapExcept_forall₂ h
    rw [List.forall₂_map_left_iff] at h2
    exact h2

/-- Workers hand back exactly the ranks of the listing, in order, and
every box-office row they emit is tagged with its own movie's rank. -/
theorem results_ranks {w : World} {root_html : String} {lst : Listing}
    {sched : List Nat} {results : List MovieResult}
    (hlen : lst.movieCells.length = lst.ranks.length)
    (h : pipelineResults w root_html lst sched = .ok results) :
    List.Forall₂ (fun res k => res.budgetEntry.1 = k ∧ ∀ b ∈ res.box_office, b.rank = k)
      results lst.ranks := by
  have h1 := pipelineResults_spec h
  have h2 := forall₂_zip_snd hlen
  refine forall₂_compose h1 h2 fun x res k hr hs => ?_
  rcases worker_rank hr with ⟨hb, hbox⟩
  exact ⟨by rw [hb, hs], fun b hbmem => by rw [hbox b hbmem, hs]⟩

/-! ## The sort order -/

theorem dkLE_total : ∀ a b, dkLE a b = true ∨ dkLE b a = true := by
  intro a b
  cases a <;> cases b <;> simp only [dkLE] <;> try simp
  rename_i x y
  rcases Int.le_total x y with h | h
  · exact Or.inl (by simpa using h)
  · exact Or.inr (by simpa using h)

theorem dkLE_trans : ∀ a b c, dkLE a b = true → dkLE b c = true → dkLE a c = true := by
  intro a b c hab hbc
  cases a <;> cases b <;> cases c <;> simp_all only [dkLE] <;> simp_all <;> omega

theorem rowLE_total : ∀ a b, rowLE a b = true ∨ rowLE b a = true := by
  intro a b
  unfold rowLE
  rcases lt_trichotomy a.1.rank b.1.rank with h | h | h
  · left
    simp [h]
  · rcases dkLE_total a.2 b.2 with hd | hd
    · left
      simp [h, hd]
    · right
      simp [h.symm, hd]
  · right
    simp [h]

theorem rowLE_trans : ∀ a b c, rowLE a b = true → rowLE b c = true → rowLE a c = true := by
  intro a b c hab hbc
  unfold rowLE at hab hbc ⊢
  simp only [Bool.or_eq_true, Bool.and_eq_true, decide_eq_true_eq, beq_iff_eq] at hab hbc ⊢
  rcases hab with h1 | ⟨h1, h2⟩ <;> rcases hbc with h3 | ⟨h3, h4⟩
  · exact Or.inl (by omega)
  · exact Or.inl (by omega)
  · exact Or.inl (by omega)
  · exact Or.inr ⟨by omega, dkLE_trans _ _ _ h2 h4⟩

/-! ## Stable insertion sort -/

theorem stableInsert_perm {α : Type} (le : α → α → Bool) (a : α) :
    ∀ l : List α, (stableInsert le a l).Perm (a :: l) := by
  intro l
  induction l with
  | nil => exact List.Perm.refl _
  | cons b bs ih =>
    unfold stableInsert
    by_cases h : le a b = true
    · rw [if_pos h]
    · rw [if_neg h]
      exact (ih.cons b).trans (List.Perm.swap a b bs)

theorem stableSort_perm {α : Type} (le : α → α → Bool) (xs : List α) :
    (stableSort le xs).Perm xs := by
  induction xs with
  | nil => exact List.Perm.refl _
  | cons x xs ih => exact (stableInsert_perm le x (stableSort le xs)).trans (ih.cons x)

theorem mem_stableInsert {α : Type} {le : α → α → Bool} {a x : α} {l : List α}
    (h : x ∈ stableInsert le a l) : x = a ∨ x ∈ l :=
  List.mem_cons.mp ((stableInsert_perm le a l).mem_iff.mp h)

theorem stableInsert_pairwise {α : Type} {le : α → α → Bool}
    (htrans : ∀ a b c, le a b = true → le b c = true → le a c = true)
    (htotal : ∀ a b, le a b = true ∨ le b a = true) (a : α) :
    ∀ {l : List α}, List.Pairwise (fun x y => le x y = true) l →
      List.Pairwise (fun x y => le x y = true) (stableInsert le a l) := by
  intro l
  induction l with
  | nil =>
    intro _
    exact List.Pairwise.cons (fun y hy => absurd hy (List.not_mem_nil y)) List.Pairwise.nil
  | cons b bs ih =>
    intro hp
    rcases List.pairwise_cons.mp hp with ⟨hb, hbs⟩
    unfold stableInsert
    by_cases hab : le a b = true
    · rw [if_pos hab]
      refine List.Pairwise.cons ?_ hp
      intro y hy
      rcases List.mem_cons.mp hy with rfl | hy2
      · exact hab
      · exact htrans a b y hab (hb y hy2)
    · rw [if_neg hab]
      refine List.Pairwise.cons ?_ (ih hbs)
      intro y hy
      rcases mem_stableInsert hy with hya | hy2
      · rw [hya]
        rcases htotal a b with h | h
        · exact absurd h hab
        · exact h
      · exact hb y hy2

theorem stableSort_pairwise {α : Type} {le : α → α → Bool}
    (htrans : ∀ a b c, le a b = true → le b c = true → le a c = true)
    (htotal : ∀ a b, le a b = true ∨ le b a = true) (xs : List α) :
    List.Pairwise (fun x y => le x y = true) (stableSort le xs) := by
  induction xs with
  | nil => exact List.Pairwise.nil
  | cons x xs ih => exact stableInsert_pairwise htrans htotal x ih

/-! ## Projection rows -/

theorem buildRows_mem {mi gi : Nat} :
    ∀ {ms : List (BoxOfficeRow × MovieRec)} {ks : List DateKey} {ds : List DaysOut},
      ∀ q ∈ buildRows mi gi ms ks ds,
        ∃ m, m ∈ ms ∧ q.1.rank = m.1.rank ∧ q.1.date = m.1.date := by
  intro ms
  induction ms with
  | nil =>
    intro ks ds q hq
    simp [buildRows] at hq
  | cons m ms ih =>
    intro ks ds q hq
    cases ks with
    | nil => simp [buildRows] at hq
    | cons k ks =>
      cases ds with
      | nil => simp [buildRows] at hq
      | cons d ds =>
        unfold buildRows at hq
        rcases List.mem_cons.mp hq with rfl | hq2
        · exact ⟨m, List.mem_cons_self _ _, rfl, rfl⟩
        · rcases ih q hq2 with ⟨m2, hm2, h1, h2⟩
          exact ⟨m2, List.mem_cons_of_mem _ hm2, h1, h2⟩

theorem buildRows_dateKey {pt : String → Option Int} {mi gi : Nat} :
    ∀ {ms : List (BoxOfficeRow × MovieRec)} {ks : List DateKey} (ds : List DaysOut),
      List.Forall₂ (fun (m : BoxOfficeRow × MovieRec) k => dateKey pt m.1.date = .ok k)
        ms ks →
      ∀ q ∈ buildRows mi gi ms ks ds, dateKey pt q.1.date = .ok q.2 := by
  intro ms
  induction ms with
  | nil =>
    intro ks ds h q hq
    simp [buildRows] at hq
  | cons m ms ih =>
    intro ks ds h q hq
    cases h with
    | cons hk htail =>
      cases ds with
      | nil => simp [buildRows] at hq
      | cons d ds =>
        unfold buildRows at hq
        rcases List.mem_cons.mp hq with rfl | hq2
        · exact hk
        · exact ih ds htail q hq2

theorem aggregate_ok_inv {w : World} {lst : Listing} {results : List MovieResult}
    {out : List ReportRow} (h : aggregate w lst results = .ok out) :
    ∃ recs merged genreIdx keys dayCol,
      mergeBudgetRating lst.movies lst.rankIdx (budgetRatingTable results) = .ok recs ∧
      mergeBoxMovies (concatBoxOffice results) recs = .ok merged ∧
      lst.movies.columns.indexOf? "Genre" = some genreIdx ∧
      mapExcept (fun p => dateKey w.parseTs p.1.date) merged = .ok keys ∧
      mapExcept (fun p => castDays p.1.days) merged = .ok dayCol ∧
      out = (stableSort rowLE (buildRows lst.movieIdx genreIdx merged keys dayCol)).map
        (fun p => p.1) := by
  unfold aggregate at h
  split at h
  · cases h
  · split at h
    · cases h
    · split at h
      · cases h
      · split at h
        · cases h
        · split at h
          · cases h
          · split at h
            · cases h
            · cases h
              rename_i x1 recs h1 hne x2 merged h2 x3 gIdx h3 x4 keys h4 x5 dayCol h5
              exact ⟨recs, merged, gIdx, keys, dayCol, h1, h2, h3, h4, h5, rfl⟩

theorem buildRows_cover {mi gi : Nat} :
    ∀ {ms : List (BoxOfficeRow × MovieRec)} {ks : List DateKey} {ds : List DaysOut},
      ks.length = ms.length → ds.length = ms.length →
      ∀ m ∈ ms, ∃ q, q ∈ buildRows mi gi ms ks ds ∧ q.1.rank = m.1.rank := by
  intro ms
  induction ms with
  | nil =>
    intro ks ds _ _ m hm
    cases hm
  | cons m0 ms ih =>
    intro ks ds hks hds m hm
    cases ks with
    | nil => cases hks
    | cons k ks =>
      cases ds with
      | nil => cases hds
      | cons d ds =>
        rcases List.mem_cons.mp hm with rfl | hm2
        · exact ⟨_, List.mem_cons_self _ _, rfl⟩
        · rcases ih (by simpa using hks) (by simpa using hds) m hm2 with ⟨q, hq, hr⟩
          refine ⟨q, ?_, hr⟩
          unfold buildRows
          exact List.mem_cons_of_mem _ hq

/-! ## Claim C2: order of the emitted rows -/

/-- C2: the final report of every successful run is the projection (the
derived sort key is dropped by the final `map`) of a keyed row list
that is sorted by `rowLE` — ascending rank first and, within a rank,
ascending derived date key, where a parseable date sorts by its
timestamp and the sentinel  N/A  keeps its literal string form, which
the mixed-type object sort places after all timestamps (equal sentinel
strings stay in stable order).  Each dropped key is exactly the key the
code derived from that row's date cell, so the statement covers every
mixture of parseable and  N/A  dates within a rank. -/
theorem c2_sorted_output (w : World) (sched : List Nat) (out : List ReportRow)
    (h : pipeline w sched = .ok out) :
    ∃ keyed : List (ReportRow × DateKey),
      out = keyed.map (fun p => p.1) ∧
      (∀ p ∈ keyed, dateKey w.parseTs p.1.date = .ok p.2) ∧
      List.Pairwise (fun a b => rowLE a b = true) keyed := by
  unfold pipeline at h
  split at h
  · cases h
  · split at h
    · cases h
    · rename_i x1 hl hfetch x2 results hres
      rcases aggregate_ok_inv h with
        ⟨recs, merged, gIdx, keys, dayCol, h1, h2, h3, h4, h5, hout⟩
      refine ⟨stableSort rowLE (buildRows hl.2.movieIdx gIdx merged keys dayCol),
        hout, ?_, ?_⟩
      · intro p hp
        have hp2 := (stableSort_perm rowLE _).mem_iff.mp hp
        exact buildRows_dateKey dayCol (mapExcept_forall₂ h4) p hp2
      · exact stableSort_pairwise rowLE_trans rowLE_total _

/-- C2 witness: the four concrete report rows of `wGood` (a rank with
parseable dates arriving out of order plus a sentinel-dated row, and a
second rank with only the sentinel row) are sorted accordingly. -/
theorem c2_witness :
    ∃ keyed : List (ReportRow × DateKey),
      wGoodRows = keyed.map (fun p => p.1) ∧
      (∀ p ∈ keyed, dateKey wGood.parseTs p.1.date = .ok p.2) ∧
      List.Pairwise (fun a b => rowLE a b = true) keyed :=
  c2_sorted_output wGood [0, 1] wGoodRows (by set_option maxRecDepth 10000 in decide)

/-! ## Claim C9: determinism over completion order -/

/-- C9: for a fixed world (byte-identical upstream HTML and statuses),
any two completion orders of the worker pool produce the same outcome,
including a byte-identical CSV text; row content depends on nothing but
the fetched pages.  The model has no clock and no randomness: `World`
is the only input besides the schedule. -/
theorem c9_deterministic (w : World) (s1 s2 : List Nat)
    (h1 : s1.Perm (List.range (taskCount w))) (h2 : s2.Perm (List.range (taskCount w))) :
    mainCsv w s1 = mainCsv w s2 := by
  unfold mainCsv
  suffices hp : pipeline w s1 = pipeline w s2 by rw [hp]
  unfold pipeline
  cases hf : fetchListing w with
  | error e => rfl
  | ok hl =>
    have htc : taskCount w = (hl.2.movieCells.zip hl.2.ranks).length := by
      unfold taskCount
      rw [hf]
    have hcov1 : ∀ i, i < (hl.2.movieCells.zip hl.2.ranks).length → i ∈ s1 := fun i hi =>
      h1.mem_iff.mpr (List.mem_range.mpr (htc ▸ hi))
    have hcov2 : ∀ i, i < (hl.2.movieCells.zip hl.2.ranks).length → i ∈ s2 := fun i hi =>
      h2.mem_iff.mpr (List.mem_range.mpr (htc ▸ hi))
    have hres : pipelineResults w hl.1 hl.2 s1 = pipelineResults w hl.1 hl.2 s2 := by
      unfold pipelineResults
      rw [executorCollect_cover _ _ s1 hcov1, executorCollect_cover _ _ s2 hcov2]
    simp only [hf]
    rw [hres]

/-- C9 witness: reversed completion order, identical CSV bytes. -/
theorem c9_witness : mainCsv wGood [1, 0] = mainCsv wGood [0, 1] :=
  c9_deterministic wGood [1, 0] [0, 1]
    (by set_option maxRecDepth 10000 in decide)
    (by set_option maxRecDepth 10000 in decide)

/-! ## Claim C7: HTTP status handling -/

/-- C7 (amended): only the module-level root fetch is status-checked —
a root status in [400, 600) aborts the run with `HTTPError` and no
retry; the per-movie summary and box-office fetches never consult the
status, so replacing every per-movie status (keeping the bodies) leaves
the outcome unchanged. -/
theorem c7_status_handling (w : World) (sched : List Nat) :
    (400 ≤ (w.http rootUrl).status → (w.http rootUrl).status < 600 →
      pipeline w sched = .error "HTTPError") ∧
    pipeline w sched = pipeline (scrubStatuses w) sched := by
  have hread : (scrubStatuses w).readHtml = w.readHtml := rfl
  have hroot : (scrubStatuses w).http rootUrl = w.http rootUrl := by
    unfold scrubStatuses
    simp
  have hbody : ∀ u, ((scrubStatuses w).http u).body = (w.http u).body := by
    intro u
    show (if u = rootUrl then w.http u else ⟨200, (w.http u).body⟩).body = (w.http u).body
    by_cases hu : u = rootUrl
    · rw [if_pos hu]
    · rw [if_neg hu]
  constructor
  · intro h1 h2
    have hr : raise_for_status (w.http rootUrl) = .error "HTTPError" := by
      unfold raise_for_status
      rw [if_pos ⟨h1, h2⟩]
    unfold pipeline fetchListing
    rw [hr]
  · have hworker : ∀ (rh : String) (c : Cell) (k : Int),
        get_budget_rating_box_office (scrubStatuses w) rh c k =
          get_budget_rating_box_office w rh c k := by
      intro rh c k
      unfold get_budget_rating_box_office
      simp only [hbody, hread]
    have hfetch : fetchListing (scrubStatuses w) = fetchListing w := by
      unfold fetchListing parseListing
      simp only [hroot, hread]
    unfold pipeline
    rw [hfetch]
    cases hf : fetchListing w with
    | error e => rfl
    | ok hl =>
      have hresults : pipelineResults (scrubStatuses w) hl.1 hl.2 sched =
          pipelineResults w hl.1 hl.2 sched := by
        unfold pipelineResults
        have hfun : (fun (p : Cell × Int) =>
            get_budget_rating_box_office (scrubStatuses w) hl.1 p.1 p.2) =
            (fun p => get_budget_rating_box_office w hl.1 p.1 p.2) :=
          funext fun p => hworker hl.1 p.1 p.2
        rw [hfun]
      have hagg : aggregate (scrubStatuses w) = aggregate w := rfl
      show (match pipelineResults w hl.1 hl.2 sched with
          | Except.error e => Except.error e
          | Except.ok results => aggregate w hl.2 results) =
        (match pipelineResults (scrubStatuses w) hl.1 hl.2 sched with
          | Except.error e => Except.error e
          | Except.ok results => aggregate (scrubStatuses w) hl.2 results)
      rw [hresults, hagg]

/-- C7 witness: a 404 on the root listing aborts; per-movie statuses
are irrelevant. -/
theorem c7_witness :
    pipeline wRoot404 [0, 1] = .error "HTTPError" ∧
    pipeline wPerMovie500 [0, 1] = pipeline (scrubStatuses wPerMovie500) [0, 1] :=
  ⟨(c7_status_handling wRoot404 [0, 1]).1 (by decide) (by decide),
   (c7_status_handling wPerMovie500 [0, 1]).2⟩

/-- C7 (counterexample): in `wPerMovie500` both per-movie fetches of
movie Alpha answer with HTTP 500, yet the run completes successfully
and uses the error-page bodies — refuting the claim that every fetch
aborts on a non-success status. -/
theorem c7_counterexample :
    (wPerMovie500.http alphaSummaryUrl).status = 500 ∧
    (wPerMovie500.http alphaBoxUrl).status = 500 ∧
    pipeline wPerMovie500 [0, 1] = .ok wGoodRows := by
  refine ⟨by decide, by decide, ?_⟩
  set_option maxRecDepth 10000 in decide

/-! ## Claim C5: when the validated merges fail -/

/-- C5 (amended): the budget/rating merge never fails (its right side
is dict-built, hence unique); after it every listing row survives, so
the combined movie records carry exactly the listing ranks in order,
and the second merge raises the fatal `MergeError` exactly when those
listing ranks contain a duplicate — for every box-office row list
whatsoever, not only when some box-office row carries the duplicated
rank.  When the listing ranks are pairwise distinct, both joins
succeed. -/
theorem c5_merge_error_iff (w : World) (sched : List Nat) (hl : String × Listing)
    (results : List MovieResult)
    (hfetch : fetchListing w = .ok hl)
    (hres : pipelineResults w hl.1 hl.2 sched = .ok results) :
    ∃ recs,
      mergeBudgetRating hl.2.movies hl.2.rankIdx (budgetRatingTable results) = .ok recs ∧
      recs.map (fun e => e.rank) = hl.2.ranks ∧
      ∀ box : List BoxOfficeRow,
        ((∃ e, mergeBoxMovies box recs = .error e) ↔ ¬hl.2.ranks.Nodup) := by
  rcases fetchListing_inv hfetch with ⟨hpl, -⟩
  rcases parseListing_spec hpl with ⟨hrows, hlen⟩
  have hnd := budgetRatingTable_nodup results
  have hr := results_ranks hlen hres
  have hranks_eq : results.map (fun r => r.budgetEntry.1) = hl.2.ranks :=
    forall₂_map_eq (List.Forall₂.imp (fun res k hab => hab.1) hr)
  have hcov : ∀ k ∈ hl.2.ranks, k ∈ (budgetRatingTable results).map (fun p => p.1) := by
    intro k hk
    apply budgetRatingTable_mem
    rw [hranks_eq]
    exact hk
  rcases mergeBudgetRating_ranks hnd hrows hcov with ⟨recs, hok, hrecs⟩
  refine ⟨recs, hok, hrecs, fun box => ⟨?_, ?_⟩⟩
  · rintro ⟨e, he⟩ hnodup
    rw [mergeBoxMovies_ok (by rwa [hrecs])] at he
    cases he
  · intro hnodup
    exact ⟨mergeErrorMsg, mergeBoxMovies_error (by rwa [hrecs])⟩

/-- C5 witness: with distinct listing ranks both joins succeed and no
box-office row list can trigger the merge error. -/
theorem c5_witness :
    ∃ recs,
      mergeBudgetRating wGoodListing.movies wGoodListing.rankIdx
        (budgetRatingTable wGoodResults) = .ok recs ∧
      recs.map (fun e => e.rank) = wGoodListing.ranks ∧
      ∀ box : List BoxOfficeRow,
        ((∃ e, mergeBoxMovies box recs = .error e) ↔ ¬wGoodListing.ranks.Nodup) :=
  c5_merge_error_iff wGood [0, 1] (rootBody, wGoodListing) wGoodResults
    (by set_option maxRecDepth 10000 in decide)
    (by set_option maxRecDepth 10000 in decide)

/-- C5 (counterexample): in `wDupRank` two listed movies share rank 1
while no box-office row exists at all, so every box-office row's rank
matches exactly one combined movie record vacuously; the claimed
equivalence then demands a successful merge, yet the run aborts with
the fatal `MergeError`. -/
theorem c5_counterexample :
    pipeline wDupRank [0, 1] = .error mergeErrorMsg ∧
    fetchListing wDupRank = .ok (rootBodyDup, dupListing) ∧
    pipelineResults wDupRank rootBodyDup dupListing [0, 1] = .ok dupResults ∧
    concatBoxOffice dupResults = [] := by
  refine ⟨?_, ?_, ?_, ?_⟩ <;> set_option maxRecDepth 10000 in decide

/-! ## Claim C1: rank coverage of the final report -/

/-- C1 (amended): in every run reaching a successful aggregation, each
report row's rank is a listing rank, and conversely every listed movie
whose extraction produced at least one box-office row (which is always
the case except when its matched box-office table has zero data rows)
has at least one report row carrying its rank. -/
theorem c1_rank_coverage (w : World) (sched : List Nat) (hl : String × Listing)
    (results : List MovieResult) (out : List ReportRow)
    (hfetch : fetchListing w = .ok hl)
    (hres : pipelineResults w hl.1 hl.2 sched = .ok results)
    (hagg : aggregate w hl.2 results = .ok out) :
    (∀ r ∈ out, r.rank ∈ hl.2.ranks) ∧
    (∀ res ∈ results, res.box_office ≠ [] →
      ∃ r ∈ out, r.rank = res.budgetEntry.1) := by
  rcases fetchListing_inv hfetch with ⟨hpl, -⟩
  rcases parseListing_spec hpl with ⟨hrows, hlen⟩
  have hr := results_ranks hlen hres
  have hranks_eq : results.map (fun r => r.budgetEntry.1) = hl.2.ranks :=
    forall₂_map_eq (List.Forall₂.imp (fun res k hab => hab.1) hr)
  rcases aggregate_ok_inv hagg with
    ⟨recs, merged, gIdx, keys, dayCol, h1, h2, h3, h4, h5, hout⟩
  have hnd := budgetRatingTable_nodup results
  have hcov : ∀ k ∈ hl.2.ranks, k ∈ (budgetRatingTable results).map (fun p => p.1) := by
    intro k hk
    apply budgetRatingTable_mem
    rw [hranks_eq]
    exact hk
  rcases mergeBudgetRating_ranks hnd hrows hcov with ⟨recs2, hok2, hrecs⟩
  have hrr : recs2 = recs := by
    rw [h1] at hok2
    exact (Except.ok.inj hok2).symm
  rw [hrr] at hrecs
  constructor
  · intro r hr2
    rw [hout] at hr2
    rcases List.mem_map.mp hr2 with ⟨q, hq, rfl⟩
    have hq2 := (stableSort_perm rowLE _).mem_iff.mp hq
    rcases buildRows_mem q hq2 with ⟨mrec, hmrec, hqm, -⟩
    rcases mergeBoxMovies_mem h2 mrec hmrec with ⟨-, hrec, hrank⟩
    rw [hqm, ← hrank, ← hrecs]
    exact List.mem_map.mpr ⟨mrec.2, hrec, rfl⟩
  · intro res hres2 hne
    rcases forall₂_mem_left hr hres2 with ⟨k, hk, hbk⟩
    cases hbo : res.box_office with
    | nil => exact absurd hbo hne
    | cons b bs =>
      have hbmem : b ∈ res.box_office := by
        rw [hbo]
        exact List.mem_cons_self _ _
      have hbrank : b.rank = k := hbk.2 b hbmem
      have hbconcat : b ∈ concatBoxOffice results := by
        unfold concatBoxOffice
        exact List.mem_flatten.mpr
          ⟨res.box_office, List.mem_map.mpr ⟨res, hres2, rfl⟩, hbmem⟩
      have hkrec : ∃ e ∈ recs, e.rank = b.rank := by
        rw [hbrank]
        have hkm : k ∈ recs.map (fun e => e.rank) := by
          rw [hrecs]
          exact hk
        rcases List.mem_map.mp hkm with ⟨e, he, hek⟩
        exact ⟨e, he, hek⟩
      rcases mergeBoxMovies_cover h2 hbconcat hkrec with ⟨p, hp, hpb⟩
      have hklen : keys.length = merged.length := (mapExcept_forall₂ h4).length_eq.symm
      have hdlen : dayCol.length = merged.length := (mapExcept_forall₂ h5).length_eq.symm
      rcases buildRows_cover hklen hdlen p hp with ⟨q, hq, hqrank⟩
      refine ⟨q.1, ?_, ?_⟩
      · rw [hout]
        exact List.mem_map.mpr ⟨q, (stableSort_perm rowLE _).mem_iff.mpr hq, rfl⟩
      · rw [hqrank, hpb, hbrank, hbk.1]

/-- C1 witness: the happy-path run covers both directions — every
report row's rank is listed, and both movies (with nonempty box-office
row lists) appear in the report. -/
theorem c1_witness :
    (∀ r ∈ wGoodRows, r.rank ∈ wGoodListing.ranks) ∧
    (∀ res ∈ wGoodResults, res.box_office ≠ [] →
      ∃ r ∈ wGoodRows, r.rank = res.budgetEntry.1) :=
  c1_rank_coverage wGood [0, 1] (rootBody, wGoodListing) wGoodResults wGoodRows
    (by set_option maxRecDepth 10000 in decide)
    (by set_option maxRecDepth 10000 in decide)
    (by set_option maxRecDepth 10000 in decide)

/-- C1 (counterexample): in `wEmptyBox` the listing has exactly one
movie, of rank 1, whose box-office page has a matching table with zero
data rows; the run succeeds with an empty report, so no report row
carries the listed rank 1 — refuting the first half of the claim. -/
theorem c1_counterexample :
    pipeline wEmptyBox [0] = .ok [] ∧
    fetchListing wEmptyBox = .ok (rootBodyC1, emptyBoxListing) ∧
    emptyBoxListing.ranks = [1] := by
  refine ⟨?_, ?_, ?_⟩ <;> set_option maxRecDepth 10000 in decide

end MovieScraper
